import Mathlib

/-!
netcode: datagram transport wrapper and client manager.

A shallow embedding of `netcode_conn.go` (the `NetcodeConn` socket wrapper) and
of the client manager exercised by `client_manager_test.go`.

The Go code is stateful; the embedding passes the connection record
(`NetcodeConn`) and the runtime (`World`: channel states and an ordered trace of
externally visible operations) explicitly.  Results of calls into package `net`
and `netaddr` are supplied by an `Env` of oracles, each of which may depend on
the whole history recorded in the `World`.
-/

namespace Netcode

/-! ## Data model of `netcode_conn.go` -/

abbrev Byte := UInt8

/-- Identity of an open `*net.UDPConn`. -/
abbrev SockId := Nat

/-- Identity of a channel created by `make(chan struct{})`. -/
abbrev ChanId := Nat

/-- Identity of a registered `NetcodeRecvHandler` function value. -/
abbrev HandlerId := Nat

/-- The sentinel errors of package netcode used by `netcode_conn.go`, and the
errors produced by package `net` (carried as an error number; such an error is
never one of the sentinels). -/
inductive NetError where
  | ErrWriteClosedSocket
  | ErrPacketHandlerBeforeListen
  | ErrSocketZeroRecv
  | ErrPacketSizeMax
  | ErrInvalidPacket
  | ErrInvalidIPAddress
  | sys (errno : Nat)
  deriving DecidableEq, Repr

/-- The error number `syscall.EINVAL`. -/
def EINVAL : Nat := 22

/-- A `net.UDPAddr`. -/
structure UDPAddr where
  IP : List Byte
  Port : Int
  Zone : String
  deriving DecidableEq, Repr

/-- A `netaddr.IP`. -/
structure NetIP where
  addr : List Byte
  zone : String
  deriving DecidableEq, Repr

/-- A `netaddr.IPPort`; `Port` is a `uint16`. -/
structure IPPort where
  IP : NetIP
  Port : Nat
  deriving DecidableEq, Repr

/-- The struct `NetcodeData`: a received payload and its sender. -/
structure NetcodeData where
  data : List Byte
  from_ : IPPort
  deriving DecidableEq, Repr

def SOCKET_RCVBUF_SIZE : Int := 2048 * 2048

def SOCKET_SNDBUF_SIZE : Int := 2048 * 2048

/-- The struct `NetcodeConn`.  `conn = none` is the nil `*net.UDPConn` (calling
one of its methods is a nil pointer dereference, a run-time panic),
`closeCh = none` the nil channel, `recvHandlerFn = none` the nil function. -/
structure NetcodeConn where
  conn : Option SockId
  reuseAddr : UDPAddr
  closeCh : Option ChanId
  isClosed : Bool
  recvSize : Int
  sendSize : Int
  maxBytes : Nat
  recvHandlerFn : Option HandlerId
  deriving DecidableEq, Repr

/-- Externally visible operations, in the order in which they happen. -/
inductive Event where
  | connWrite (s : SockId) (b : List Byte)
  | connWriteTo (s : SockId) (b : List Byte) (to_ : UDPAddr)
  | connClose (s : SockId)
  | dialUDP (a : UDPAddr)
  | listenUDP (a : UDPAddr)
  | setReadBuffer (s : SockId) (bytes : Int)
  | setWriteBuffer (s : SockId) (bytes : Int)
  | readFromUDP (s : SockId) (len : Nat)
  | goReadLoop
  | handlerCall (h : HandlerId) (d : NetcodeData)
  | logPrintf (e : NetError)
  | recvCloseCh (ch : Option ChanId)
  deriving DecidableEq, Repr

/-- The Go runtime and the operating system as far as the wrapper can observe
them: the channels allocated so far (`nextChan`), which of them have been
closed, and the trace of operations. -/
structure World where
  nextChan : ChanId
  closed : List ChanId
  trace : List Event
  deriving DecidableEq, Repr

def World.emit (w : World) (e : Event) : World :=
  { w with trace := w.trace ++ [e] }

/-- The statement `make(chan struct{})`. -/
def makeChan (w : World) : ChanId × World :=
  (w.nextChan, { w with nextChan := w.nextChan + 1 })

/-- Whether a receive from `ch` can proceed because `ch` has been closed.  A
receive from the nil channel blocks forever. -/
def chanClosed (w : World) (ch : Option ChanId) : Bool :=
  match ch with
  | none => false
  | some i => decide (i ∈ w.closed)

/-- The builtin `close(ch)`: `none` is the run-time panic raised for the nil
channel and for a channel that is already closed. -/
def closeChan (w : World) (ch : Option ChanId) : Option World :=
  match ch with
  | none => none
  | some i => if i ∈ w.closed then none else some { w with closed := i :: w.closed }

/-- What the wrapper calls but does not define: the constant
`MAX_PACKET_BYTES`, `NewPacket` (only whether its result is non-nil matters),
the `netaddr` conversions, and the calls into package `net`.  A `net` call
yields an error number or a result; for `ReadFromUDP` the result is the byte
count, the sender and the bytes the socket stored at the front of the buffer. -/
structure Env where
  MAX_PACKET_BYTES : Nat
  NewPacket : List Byte → Bool
  FromStdIP : List Byte → Option NetIP
  WithZone : NetIP → String → NetIP
  UDPAddrAt : IPPort → UDPAddr
  connWrite : World → SockId → List Byte → Int × Option Nat
  connWriteTo : World → SockId → List Byte → UDPAddr → Int × Option Nat
  connClose : World → SockId → Option Nat
  DialUDP : World → UDPAddr → Except Nat SockId
  ListenUDP : World → UDPAddr → Except Nat SockId
  ReadFromUDP : World → SockId → Nat → Except Nat (Nat × UDPAddr × List Byte)

/-- How a method that can raise a run-time panic ends: it returns `v`, or it
panics, in either case leaving a connection record and a world behind. -/
inductive Outcome (α : Type) where
  | ret (v : α) (c : NetcodeConn) (w : World)
  | panic (c : NetcodeConn) (w : World)
  deriving DecidableEq, Repr

/-! ## The methods of `NetcodeConn` -/

def NewNetcodeConn (env : Env) (w : World) : NetcodeConn × World :=
  let (ch, w) := makeChan w
  ({ conn := none
     reuseAddr := { IP := [], Port := 0, Zone := "" }
     closeCh := some ch
     isClosed := true
     recvSize := SOCKET_RCVBUF_SIZE
     sendSize := SOCKET_SNDBUF_SIZE
     maxBytes := env.MAX_PACKET_BYTES
     recvHandlerFn := none }, w)

def SetRecvHandler (c : NetcodeConn) (recvHandlerFn : Option HandlerId) : NetcodeConn :=
  { c with recvHandlerFn := recvHandlerFn }

def Write (env : Env) (c : NetcodeConn) (w : World) (b : List Byte) :
    Outcome (Int × Option NetError) :=
  if c.isClosed then
    .ret (-1, some .ErrWriteClosedSocket) c w
  else
    match c.conn with
    | none => .panic c w
    | some s =>
      let r := env.connWrite w s b
      .ret (r.1, r.2.map .sys) c (w.emit (.connWrite s b))

def WriteTo (env : Env) (c : NetcodeConn) (w : World) (b : List Byte) (to_ : IPPort) :
    Outcome (Int × Option NetError) :=
  if c.isClosed then
    .ret (-1, some .ErrWriteClosedSocket) c w
  else
    let ua := env.UDPAddrAt to_
    let c := { c with reuseAddr := ua }
    match c.conn with
    | none => .panic c w
    | some s =>
      let r := env.connWriteTo w s b ua
      .ret (r.1, r.2.map .sys) c (w.emit (.connWriteTo s b ua))

def Close (env : Env) (c : NetcodeConn) (w : World) : Outcome (Option NetError) :=
  let closedCh := if !c.isClosed then closeChan w c.closeCh else some w
  match closedCh with
  | none => .panic c w
  | some w =>
    let c := { c with isClosed := true }
    match c.conn with
    | some s => .ret ((env.connClose w s).map .sys) c (w.emit (.connClose s))
    | none => .ret none c w

def SetReadBuffer (c : NetcodeConn) (bytes : Int) : NetcodeConn :=
  { c with recvSize := bytes }

def SetWriteBuffer (c : NetcodeConn) (bytes : Int) : NetcodeConn :=
  { c with sendSize := bytes }

/-- The method `create`; `go c.readLoop()` is recorded as `goReadLoop`.  On a
nil `conn` the call `c.conn.SetReadBuffer` panics after the flag was cleared,
and no loop is started. -/
def create (c : NetcodeConn) (w : World) : Outcome (Option NetError) :=
  let c := { c with isClosed := false }
  match c.conn with
  | none => .panic c w
  | some s =>
    let w := (w.emit (.setReadBuffer s c.recvSize)).emit (.setWriteBuffer s c.sendSize)
    .ret none c (w.emit .goReadLoop)

def Dial (env : Env) (c : NetcodeConn) (w : World) (address : IPPort) :
    Outcome (Option NetError) :=
  if c.recvHandlerFn.isNone then
    .ret (some .ErrPacketHandlerBeforeListen) c w
  else
    let (ch, w) := makeChan w
    let c := { c with closeCh := some ch }
    let ua := env.UDPAddrAt address
    let c := { c with reuseAddr := ua }
    match env.DialUDP w ua with
    | .error e => .ret (some (.sys e)) { c with conn := none } (w.emit (.dialUDP ua))
    | .ok s => create { c with conn := some s } (w.emit (.dialUDP ua))

def Listen (env : Env) (c : NetcodeConn) (w : World) (address : IPPort) :
    Outcome (Option NetError) :=
  if c.recvHandlerFn.isNone then
    .ret (some .ErrPacketHandlerBeforeListen) c w
  else
    let ua := env.UDPAddrAt address
    let c := { c with reuseAddr := ua }
    match env.ListenUDP w ua with
    | .error e => .ret (some (.sys e)) { c with conn := none } (w.emit (.listenUDP ua))
    | .ok s =>
      match create { c with conn := some s } (w.emit (.listenUDP ua)) with
      | .ret _ c w => .ret none c w
      | .panic c w => .panic c w

/-- The buffer `make([]byte, maxBytes)` after the socket stored `written` at
its front: the length stays `maxBytes`. -/
def fillBuffer (maxBytes : Nat) (written : List Byte) : List Byte :=
  (written ++ List.replicate maxBytes 0).take maxBytes

/-- The conversion `uint16(port)` of a Go `int`. -/
def toUint16 (port : Int) : Nat := (port % 65536).toNat

/-- The method `read`.  On a nil `conn` the call `c.conn.ReadFromUDP` panics;
calling a nil `recvHandlerFn` is a run-time panic.  At `data[:n]` the count
satisfies `n <= maxBytes = len(data)`, so the slice expression cannot fail. -/
def read (env : Env) (c : NetcodeConn) (w : World) : Outcome (Option NetError) :=
  match c.conn with
  | none => .panic c w
  | some s =>
    let w := w.emit (.readFromUDP s c.maxBytes)
    match env.ReadFromUDP w s c.maxBytes with
    | .error e => .ret (some (.sys e)) c w
    | .ok (n, sender, written) =>
      let data := fillBuffer c.maxBytes written
      if n = 0 then .ret (some .ErrSocketZeroRecv) c w
      else if n > c.maxBytes then .ret (some .ErrPacketSizeMax) c w
      else if env.NewPacket data = false then .ret (some .ErrInvalidPacket) c w
      else
        let data := data.take n
        match env.FromStdIP sender.IP with
        | none => .ret (some .ErrInvalidIPAddress) c w
        | some ip =>
          let ip := env.WithZone ip sender.Zone
          let netData : NetcodeData :=
            { data := data, from_ := { IP := ip, Port := toUint16 sender.Port } }
          match c.recvHandlerFn with
          | none => .panic c w
          | some h => .ret none c (w.emit (.handlerCall h netData))

/-- How one pass through the body of the `for` loop of `receiver` ends. -/
inductive LoopCtl where
  | returned
  | continued
  deriving DecidableEq, Repr

/-- One pass through the body of the `for` loop of `receiver`. -/
def receiverIter (env : Env) (c : NetcodeConn) (w : World) : Outcome LoopCtl :=
  match read env c w with
  | .panic c w => .panic c w
  | .ret none c w =>
    let w := w.emit (.recvCloseCh c.closeCh)
    if chanClosed w c.closeCh then .ret .returned c w else .ret .continued c w
  | .ret (some err) c w =>
    if c.isClosed then .ret .returned c w
    else .ret .continued c (w.emit (.logPrintf err))

/-- A call made on the connection by the program that owns it. -/
inductive Op where
  | SetRecvHandler (h : Option HandlerId)
  | Listen (address : IPPort)
  | Dial (address : IPPort)
  | Close
  deriving DecidableEq, Repr

def applyOp (env : Env) (op : Op) (c : NetcodeConn) (w : World) : Outcome Unit :=
  match op with
  | .SetRecvHandler h => .ret () (SetRecvHandler c h) w
  | .Listen a =>
    match Listen env c w a with
    | .ret _ c w => .ret () c w
    | .panic c w => .panic c w
  | .Dial a =>
    match Dial env c w a with
    | .ret _ c w => .ret () c w
    | .panic c w => .panic c w
  | .Close =>
    match Close env c w with
    | .ret _ c w => .ret () c w
    | .panic c w => .panic c w

/-- A sequence of calls, stopping at the first panic. -/
def runOps (env : Env) : List Op → NetcodeConn → World → Outcome Unit
  | [], c, w => .ret () c w
  | op :: ops, c, w =>
    match applyOp env op c w with
    | .ret _ c w => runOps env ops c w
    | .panic c w => .panic c w

/-- The method `receiver`, run against a schedule: before each pass the owning
program performs the listed calls (for instance while the loop is blocked in the
socket read).  The result is `true` when the loop has returned and `false` when
it is still running at the end of the schedule. -/
def receiver (env : Env) : List (List Op) → NetcodeConn → World → Outcome Bool
  | [], c, w => .ret false c w
  | ops :: rest, c, w =>
    match runOps env ops c w with
    | .panic c w => .panic c w
    | .ret _ c w =>
      match receiverIter env c w with
      | .panic c w => .panic c w
      | .ret .returned c w => .ret true c w
      | .ret .continued c w => receiver env rest c w

/-! ## The client manager

`client_manager_test.go` exercises a `ClientManager` whose implementation is not
among the sources; it is modelled from the specification (sections 3 and 4.4). -/

/-- Times are seconds; the manager only compares and adds them. -/
abbrev Time := ℚ

abbrev Key := List Byte

/-- Modelled from the spec: the decrypted private section of a connect token
(the type of `connectToken.PrivateData`, missing from the sources), reduced to
what `AddEncryptionMapping` reads: the client identifier and the two session
keys. -/
structure ConnectTokenPrivate where
  ClientId : Nat
  ServerKey : Key
  ClientKey : Key
  deriving DecidableEq, Repr

/-- Modelled from the spec: the challenge token handed to `ConnectClient` (its
type is missing from the sources).  `opens` says whether the sealed token can be
opened; opening yields the client identifier and the user data. -/
structure ChallengeToken where
  ClientId : Nat
  UserData : List Byte
  opens : Bool
  deriving DecidableEq, Repr

/-- Modelled from the spec: `NewChallengeToken`, missing from the sources, as the
test uses it: a token for `clientId` that opens. -/
def NewChallengeToken (clientId : Nat) : ChallengeToken :=
  { ClientId := clientId, UserData := [], opens := true }

/-- Modelled from the spec: the encryption mapping entry of section 3 (missing
from the sources). -/
structure encryptionEntry where
  address : IPPort
  sendKey : Key
  recvKey : Key
  createTime : Time
  expireTime : Time
  lastAccess : Time
  deriving DecidableEq, Repr

/-- Modelled from the spec: the connected client slot of section 3 (missing from
the sources). -/
structure ClientInstance where
  clientIndex : Nat
  clientId : Nat
  address : IPPort
  connected : Bool
  sendKey : Key
  recvKey : Key
  lastSend : Time
  lastRecv : Time
  timeout : Time
  replayWindow : List Nat
  userData : List Byte
  deriving DecidableEq, Repr

/-- Modelled from the spec: the client manager (missing from the sources): a
fixed array of `maxClients` client slots and a mapping table of `maxClients`
slots, each unused (`none`) or holding an entry. -/
structure ClientManager where
  maxClients : Nat
  timeout : Time
  instances : List ClientInstance
  cryptoEntries : List (Option encryptionEntry)
  deriving DecidableEq, Repr

/-- Linear scan: the position of the first element satisfying `p`. -/
def findSlot {α : Type} (p : α → Bool) : List α → Option Nat
  | [] => none
  | x :: xs => if p x then some 0 else (findSlot p xs).map (· + 1)

/-- A slot handle as the Go code returns it: `-1` for "not found". -/
def toIndex : Option Nat → Int
  | none => -1
  | some i => (i : Int)

/-- The empty state of client slot `i`. -/
def emptyInstance (i : Nat) : ClientInstance :=
  { clientIndex := i, clientId := 0
    address := { IP := { addr := [], zone := "" }, Port := 0 }
    connected := false, sendKey := [], recvKey := []
    lastSend := 0, lastRecv := 0, timeout := 0, replayWindow := [], userData := [] }

/-- Modelled from the spec: `NewClientManager`, missing from the sources: both
tables have capacity `maxClients` and start empty. -/
def NewClientManager (timeout : Time) (maxClients : Nat) : ClientManager :=
  { maxClients := maxClients
    timeout := timeout
    instances := (List.range maxClients).map emptyInstance
    cryptoEntries := List.replicate maxClients none }

/-- Modelled from the spec: `FindFreeClientIndex`, missing from the sources:
the first slot with `connected == false`. -/
def FindFreeClientIndex (cm : ClientManager) : Int :=
  toIndex (findSlot (fun i => !i.connected) cm.instances)

/-- Modelled from the spec: `FindClientIndexByAddress`, missing from the
sources: linear scan restricted to connected slots. -/
def FindClientIndexByAddress (cm : ClientManager) (addr : IPPort) : Int :=
  toIndex (findSlot (fun i => i.connected && decide (i.address = addr)) cm.instances)

/-- Modelled from the spec: `FindClientIndexById`, missing from the sources:
linear scan restricted to connected slots. -/
def FindClientIndexById (cm : ClientManager) (clientId : Nat) : Int :=
  toIndex (findSlot (fun i => i.connected && decide (i.clientId = clientId)) cm.instances)

/-- Modelled from the spec: `ConnectedClientCount`, missing from the sources. -/
def ConnectedClientCount (cm : ClientManager) : Nat :=
  cm.instances.countP (fun i => i.connected)

/-- A mapping slot holds an entry that is unexpired as of `serverTime`. -/
def slotLive (serverTime : Time) : Option encryptionEntry → Bool
  | none => false
  | some e => decide (serverTime < e.expireTime)

/-- A mapping slot holds an unexpired entry for `addr`. -/
def slotLiveFor (addr : IPPort) (serverTime : Time) : Option encryptionEntry → Bool
  | none => false
  | some e => decide (e.address = addr) && decide (serverTime < e.expireTime)

/-- A mapping slot holds an entry for `addr`, expired or not. -/
def slotHolds (addr : IPPort) : Option encryptionEntry → Bool
  | none => false
  | some e => decide (e.address = addr)

/-- The number of live entries of the mapping table. -/
def liveCount (cm : ClientManager) (serverTime : Time) : Nat :=
  cm.cryptoEntries.countP (slotLive serverTime)

/-- Modelled from the spec: `FindEncryptionEntryIndex`, missing from the
sources: the index of the live mapping for `addr`, else `-1`. -/
def FindEncryptionEntryIndex (cm : ClientManager) (addr : IPPort) (serverTime : Time) : Int :=
  toIndex (findSlot (slotLiveFor addr serverTime) cm.cryptoEntries)

/-- Modelled from the spec: `AddEncryptionMapping`, missing from the sources:
an unexpired mapping for `addr` is overwritten in place; otherwise the call
fails without mutation when the table holds `maxClients` live entries, and
else stores a new entry in the first slot that holds no live entry. -/
def AddEncryptionMapping (cm : ClientManager) (connectToken : ConnectTokenPrivate)
    (addr : IPPort) (serverTime expireTime : Time) : Bool × ClientManager :=
  match findSlot (slotLiveFor addr serverTime) cm.cryptoEntries with
  | some i =>
    let refresh : encryptionEntry → encryptionEntry := fun e =>
      { e with sendKey := connectToken.ServerKey
               recvKey := connectToken.ClientKey
               expireTime := expireTime
               lastAccess := serverTime }
    (true, { cm with cryptoEntries := cm.cryptoEntries.modify (Option.map refresh) i })
  | none =>
    if cm.maxClients ≤ liveCount cm serverTime then (false, cm)
    else
      match findSlot (fun s => !slotLive serverTime s) cm.cryptoEntries with
      | none => (false, cm)
      | some i =>
        let entry : encryptionEntry :=
          { address := addr
            sendKey := connectToken.ServerKey
            recvKey := connectToken.ClientKey
            createTime := serverTime
            expireTime := expireTime
            lastAccess := serverTime }
        (true, { cm with cryptoEntries := cm.cryptoEntries.set i (some entry) })

/-- Modelled from the spec: `SetEncryptionEntryExpiration`, missing from the
sources: fails if `index` is out of range or the slot is unused. -/
def SetEncryptionEntryExpiration (cm : ClientManager) (index : Int) (expireTime : Time) :
    Bool × ClientManager :=
  if index < 0 then (false, cm)
  else
    match cm.cryptoEntries.get? index.toNat with
    | some (some e) =>
      let e : encryptionEntry := { e with expireTime := expireTime }
      (true, { cm with cryptoEntries := cm.cryptoEntries.set index.toNat (some e) })
    | _ => (false, cm)

/-- Modelled from the spec: `DisconnectClient`, missing from the sources: the
manager only resets the slot; sending disconnect frames is left to the caller,
so `sendDisconnectPackets` and `serverTime` do not affect the tables. -/
def DisconnectClient (cm : ClientManager) (index : Int) (_sendDisconnectPackets : Bool)
    (_serverTime : Time) : ClientManager :=
  if index < 0 then cm
  else
    { cm with
      instances := cm.instances.modify (fun i => emptyInstance i.clientIndex) index.toNat }

/-- Modelled from the spec: `CheckTimeouts`, missing from the sources: removes
the mappings with `expireTime <= serverTime` and disconnects the connected slots
with `lastReceive + timeout < serverTime`. -/
def CheckTimeouts (cm : ClientManager) (serverTime : Time) : ClientManager :=
  { cm with
    cryptoEntries := cm.cryptoEntries.map fun s =>
      match s with
      | none => none
      | some e => if e.expireTime ≤ serverTime then none else some e
    instances := cm.instances.map fun i =>
      if i.connected && decide (i.lastRecv + i.timeout < serverTime)
      then emptyInstance i.clientIndex else i }

/-- Modelled from the spec: `ConnectClient`, missing from the sources: fails if
the challenge token does not open or no slot is free; otherwise the first free
slot is assigned, the keys are copied from the mapping stored for `addr`, and
the slot is returned. -/
def ConnectClient (cm : ClientManager) (addr : IPPort) (challengeToken : ChallengeToken) :
    Option ClientInstance × ClientManager :=
  if challengeToken.opens = false then (none, cm)
  else
    match findSlot (fun i => !i.connected) cm.instances with
    | none => (none, cm)
    | some idx =>
      let keys : Key × Key :=
        match cm.cryptoEntries.find? (slotHolds addr) with
        | some (some e) => (e.sendKey, e.recvKey)
        | _ => ([], [])
      let client : ClientInstance :=
        { emptyInstance idx with
          clientId := challengeToken.ClientId
          address := addr
          connected := true
          sendKey := keys.1
          recvKey := keys.2
          timeout := cm.timeout
          userData := challengeToken.UserData }
      (some client, { cm with instances := cm.instances.set idx client })

/-! ## Concrete environments and states used to evaluate the code -/

/-- What a datagram socket does on a receive into a buffer of `len` bytes: it
stores the first `len` bytes of the datagram, drops the rest, and reports the
number of bytes stored. -/
def recvDatagram (dgram : List Byte) (sender : UDPAddr) (len : Nat) :
    Nat × UDPAddr × List Byte :=
  (min dgram.length len, sender, dgram.take len)

def sampleSender : UDPAddr := { IP := [127, 0, 0, 1], Port := 40000, Zone := "" }

def sampleAddr : IPPort := { IP := { addr := [127, 0, 0, 1], zone := "" }, Port := 40000 }

def sampleWorld : World := { nextChan := 0, closed := [], trace := [] }

/-- An environment with `MAX_PACKET_BYTES = 4` in which `ListenUDP` succeeds,
`DialUDP` fails with `dialErr` when that is given, every write and close
succeeds, and each receive delivers `dgram` from `sampleSender`, or fails with
`EINVAL` on a socket that has been closed.  `NewPacket` accepts the packet types
0 to 6 in the low four bits of the first byte. -/
def sampleEnv (dialErr : Option Nat) (dgram : List Byte) : Env :=
  { MAX_PACKET_BYTES := 4
    NewPacket := fun b =>
      match b with
      | [] => false
      | x :: _ => decide (x.toNat % 16 < 7)
    FromStdIP := fun ip =>
      if ip.length = 4 ∨ ip.length = 16 then some { addr := ip, zone := "" } else none
    WithZone := fun ip z => { ip with zone := z }
    UDPAddrAt := fun a => { IP := a.IP.addr, Port := a.Port, Zone := a.IP.zone }
    connWrite := fun _ _ b => (b.length, none)
    connWriteTo := fun _ _ b _ => (b.length, none)
    connClose := fun _ _ => none
    DialUDP := fun w _ =>
      match dialErr with
      | some e => .error e
      | none => .ok w.trace.length
    ListenUDP := fun w _ => .ok w.trace.length
    ReadFromUDP := fun w s len =>
      if Event.connClose s ∈ w.trace then .error EINVAL
      else .ok (recvDatagram dgram sampleSender len) }

/-- The zero value `NetcodeConn{}` of the struct type. -/
def zeroConn : NetcodeConn :=
  { conn := none, reuseAddr := { IP := [], Port := 0, Zone := "" }, closeCh := none
    isClosed := false, recvSize := 0, sendSize := 0, maxBytes := 0, recvHandlerFn := none }

/-- The calls `SetRecvHandler(h); Listen(a); Close(); Listen(a)`. -/
def relisten : List Op :=
  [.SetRecvHandler (some 1), .Listen sampleAddr, .Close, .Listen sampleAddr]

/-- A connection as `Listen` leaves it: socket 0, open channel 0, handler 1,
`maxBytes = 4`. -/
def sampleConn : NetcodeConn :=
  { conn := some 0, reuseAddr := { IP := [127, 0, 0, 1], Port := 40000, Zone := "" }
    closeCh := some 0, isClosed := false, recvSize := SOCKET_RCVBUF_SIZE
    sendSize := SOCKET_SNDBUF_SIZE, maxBytes := 4, recvHandlerFn := some 1 }

/-- The number of handler invocations recorded in a trace. -/
def handlerCalls (t : List Event) : Nat :=
  t.countP fun e =>
    match e with
    | .handlerCall _ _ => true
    | _ => false

/-! ## Auxiliary definitions for the mapping table -/

/-- The entry `AddEncryptionMapping` stores for a new address. -/
def mkEntry (tok : ConnectTokenPrivate) (serverTime expireTime : Time) (addr : IPPort) :
    encryptionEntry :=
  { address := addr
    sendKey := tok.ServerKey
    recvKey := tok.ClientKey
    createTime := serverTime
    expireTime := expireTime
    lastAccess := serverTime }

/-- A mapping table whose first slots hold the entries for `present`, in order,
followed by `free` unused slots. -/
def filledTable (tok : ConnectTokenPrivate) (serverTime expireTime : Time)
    (present : List IPPort) (free : Nat) : List (Option encryptionEntry) :=
  present.map (fun a => some (mkEntry tok serverTime expireTime a)) ++ List.replicate free none

/-- Calls `AddEncryptionMapping` for each address in turn, with the same token
and times, and collects the results. -/
def addAll (cm : ClientManager) (tok : ConnectTokenPrivate) (serverTime expireTime : Time) :
    List IPPort → List Bool × ClientManager
  | [] => ([], cm)
  | a :: rest =>
    let r := AddEncryptionMapping cm tok a serverTime expireTime
    let rs := addAll r.2 tok serverTime expireTime rest
    (r.1 :: rs.1, rs.2)

/-! ## The scenario of `TestAddEncryptionMapping` -/

def testIP : NetIP := { addr := [0, 0, 0, 0, 0, 0, 0, 0, 0, 0, 0, 0, 0, 0, 0, 1], zone := "" }

/-- The address `::1` with the given port. -/
def testAddr (port : Nat) : IPPort := { IP := testIP, Port := port }

/-- The addresses `overAddrs` of the test: ports `6000 .. 6000 + n - 1`. -/
def overAddrs (n : Nat) : List IPPort := (List.range n).map fun i => testAddr (6000 + i)

def testToken : ConnectTokenPrivate := { ClientId := 7, ServerKey := [1], ClientKey := [2] }

/-- A manager with `maxClients = 2` holding a live mapping for port 62424. -/
def mappedManager : ClientManager :=
  (AddEncryptionMapping (NewClientManager 4 2) testToken (testAddr 62424) 1 2).2

/-- The manager after `ConnectClient` with a token for client id 7. -/
def connectedOnce : ClientManager :=
  (ConnectClient mappedManager (testAddr 62424) (NewChallengeToken 7)).2

/-- The slot that `ConnectClient` returns on `mappedManager`. -/
def connectedClient : ClientInstance :=
  { emptyInstance 0 with
    clientId := 7, address := testAddr 62424, connected := true
    sendKey := [1], recvKey := [2], timeout := 4 }

/-- Modelled from the spec: the invariant of the connected client slots in
section 3 (the manager that maintains it is missing from the sources): among
the slots with `connected == true` both the client identifier and the address
are unique. -/
def uniqueConnected (cm : ClientManager) : Prop :=
  cm.instances.Pairwise fun a b =>
    a.connected = true → b.connected = true →
      a.clientId ≠ b.clientId ∧ a.address ≠ b.address

/-- The connection and the world an outcome leaves behind. -/
def Outcome.state {α : Type} : Outcome α → NetcodeConn × World
  | .ret _ c w => (c, w)
  | .panic c w => (c, w)

/-- The state after `SetRecvHandler(h); Listen(a); Close()` on a fresh
connection, in the environment whose reads fail on a closed socket. -/
def closedState : NetcodeConn × World :=
  (runOps (sampleEnv none [1, 2, 3]) [.SetRecvHandler (some 1), .Listen sampleAddr, .Close]
    (NewNetcodeConn (sampleEnv none [1, 2, 3]) sampleWorld).1
    (NewNetcodeConn (sampleEnv none [1, 2, 3]) sampleWorld).2).state

/-- A connection that holds a socket and whose `isClosed` flag is set has had
its `closeCh` closed.  This holds in every state reached from `NewNetcodeConn`
through the methods of the connection. -/
def closeSignalled (c : NetcodeConn) (w : World) : Prop :=
  c.conn ≠ none → c.isClosed = true → chanClosed w c.closeCh = true

/-! ## Helper lemmas on the transport -/

theorem fillBuffer_length (maxBytes : Nat) (written : List Byte) :
    (fillBuffer maxBytes written).length = maxBytes := by
  simp [fillBuffer]

theorem handlerCalls_emit (w : World) (e : Event) :
    handlerCalls (w.emit e).trace
      = handlerCalls w.trace + (match e with | .handlerCall _ _ => 1 | _ => 0) := by
  cases e <;> simp [handlerCalls, World.emit, List.countP_append]

theorem read_conn_nil (env : Env) (c : NetcodeConn) (w : World) (hc : c.conn = none) :
    read env c w = .panic c w := by
  simp [read, hc]

/-- What `read` does once the socket read has succeeded. -/
theorem read_ok (env : Env) (c : NetcodeConn) (w : World) (s : SockId)
    (n : Nat) (sender : UDPAddr) (written : List Byte)
    (hconn : c.conn = some s)
    (hread : env.ReadFromUDP (w.emit (.readFromUDP s c.maxBytes)) s c.maxBytes
      = .ok (n, sender, written)) :
    read env c w =
      (if n = 0 then .ret (some .ErrSocketZeroRecv) c (w.emit (.readFromUDP s c.maxBytes))
       else if n > c.maxBytes then
         .ret (some .ErrPacketSizeMax) c (w.emit (.readFromUDP s c.maxBytes))
       else if env.NewPacket (fillBuffer c.maxBytes written) = false then
         .ret (some .ErrInvalidPacket) c (w.emit (.readFromUDP s c.maxBytes))
       else
         match env.FromStdIP sender.IP with
         | none => .ret (some .ErrInvalidIPAddress) c (w.emit (.readFromUDP s c.maxBytes))
         | some ip =>
           match c.recvHandlerFn with
           | none => .panic c (w.emit (.readFromUDP s c.maxBytes))
           | some h => .ret none c ((w.emit (.readFromUDP s c.maxBytes)).emit
               (.handlerCall h
                 { data := (fillBuffer c.maxBytes written).take n
                   from_ := { IP := env.WithZone ip sender.Zone
                              Port := toUint16 sender.Port } }))) := by
  simp only [read, hconn, hread]

/-! ## Claims on the transport -/

/-- C2. With no receive handler registered, `Dial` and `Listen` return
`ErrPacketHandlerBeforeListen` and change neither the connection record (so
`conn`, `isClosed` and `closeCh` keep their values) nor the world (no socket is
opened, no receive loop is started); with a handler registered, in particular
right after `SetRecvHandler` with a non-nil handler, both return, and neither
returns that error. -/
theorem handler_before_listen (env : Env) (c : NetcodeConn) (w : World) (address : IPPort) :
    (c.recvHandlerFn = none →
      Dial env c w address = .ret (some .ErrPacketHandlerBeforeListen) c w ∧
      Listen env c w address = .ret (some .ErrPacketHandlerBeforeListen) c w) ∧
    (∀ h : HandlerId, c.recvHandlerFn = some h →
      (∃ v c1 w1, Dial env c w address = .ret v c1 w1 ∧
        v ≠ some .ErrPacketHandlerBeforeListen) ∧
      (∃ v c1 w1, Listen env c w address = .ret v c1 w1 ∧
        v ≠ some .ErrPacketHandlerBeforeListen)) ∧
    (∀ h : HandlerId,
      (∃ v c1 w1, Dial env (SetRecvHandler c (some h)) w address = .ret v c1 w1 ∧
        v ≠ some .ErrPacketHandlerBeforeListen) ∧
      (∃ v c1 w1, Listen env (SetRecvHandler c (some h)) w address = .ret v c1 w1 ∧
        v ≠ some .ErrPacketHandlerBeforeListen)) := by
  have key : ∀ (c : NetcodeConn) (h : HandlerId), c.recvHandlerFn = some h →
      (∃ v c1 w1, Dial env c w address = .ret v c1 w1 ∧
        v ≠ some .ErrPacketHandlerBeforeListen) ∧
      (∃ v c1 w1, Listen env c w address = .ret v c1 w1 ∧
        v ≠ some .ErrPacketHandlerBeforeListen) := by
    intro c h hh
    constructor
    · simp only [Dial, hh, Option.isNone_some, makeChan]
      rw [if_neg (by simp)]
      split
      · exact ⟨_, _, _, rfl, by simp⟩
      · exact ⟨_, _, _, rfl, by simp⟩
    · simp only [Listen, hh, Option.isNone_some]
      rw [if_neg (by simp)]
      split
      · exact ⟨_, _, _, rfl, by simp⟩
      · exact ⟨_, _, _, rfl, by simp⟩
  refine ⟨?_, key c, ?_⟩
  · intro hn
    simp [Dial, Listen, hn]
  · intro h
    exact key _ h rfl

/-- The guard of C2 on a fresh connection. -/
theorem handler_before_listen_witness :
    Dial (sampleEnv none []) (NewNetcodeConn (sampleEnv none []) sampleWorld).1 sampleWorld
        sampleAddr
      = .ret (some .ErrPacketHandlerBeforeListen)
          (NewNetcodeConn (sampleEnv none []) sampleWorld).1 sampleWorld ∧
    Listen (sampleEnv none []) (NewNetcodeConn (sampleEnv none []) sampleWorld).1 sampleWorld
        sampleAddr
      = .ret (some .ErrPacketHandlerBeforeListen)
          (NewNetcodeConn (sampleEnv none []) sampleWorld).1 sampleWorld :=
  (handler_before_listen (sampleEnv none [])
    (NewNetcodeConn (sampleEnv none []) sampleWorld).1 sampleWorld sampleAddr).1 (by decide)

/-- C1 (counterexample). `Close` does not leave `isClosed == true` from every
starting state: on the zero value of the struct, and in the state reached by
`SetRecvHandler; Listen; Close; Listen` from `NewNetcodeConn`, `close(c.closeCh)`
panics before the flag is set. -/
theorem Close_panics_counterexample :
    Close (sampleEnv none []) zeroConn sampleWorld = .panic zeroConn sampleWorld ∧
    zeroConn.isClosed = false ∧
    ∃ c w,
      runOps (sampleEnv none []) relisten
        (NewNetcodeConn (sampleEnv none []) sampleWorld).1
        (NewNetcodeConn (sampleEnv none []) sampleWorld).2 = .ret () c w ∧
      Close (sampleEnv none []) c w = .panic c w ∧ c.isClosed = false := by
  refine ⟨by decide, by decide, _, _, rfl, by decide, by decide⟩

/-- C1 (amended). On a connection whose `isClosed` flag is true, as freshly
returned by `NewNetcodeConn` and as left by every `Close` that returns, `Write`
and `WriteTo` return `(-1, ErrWriteClosedSocket)` and touch neither the
connection nor the socket; and `Close` returns and leaves `isClosed == true`
from every starting state in which `isClosed` is already true or `closeCh` is a
channel that has not been closed. -/
theorem write_after_close (env : Env) (c : NetcodeConn) (w : World) (b : List Byte)
    (to_ : IPPort) :
    (c.isClosed = true →
      Write env c w b = .ret (-1, some .ErrWriteClosedSocket) c w ∧
      WriteTo env c w b to_ = .ret (-1, some .ErrWriteClosedSocket) c w) ∧
    (NewNetcodeConn env w).1.isClosed = true ∧
    (∀ v c1 w1, Close env c w = .ret v c1 w1 → c1.isClosed = true) ∧
    ((c.isClosed = true ∨ ∃ ch, c.closeCh = some ch ∧ ch ∉ w.closed) →
      ∃ v c1 w1, Close env c w = .ret v c1 w1 ∧ c1.isClosed = true) := by
  refine ⟨?_, rfl, ?_, ?_⟩
  · intro hc
    simp [Write, WriteTo, hc]
  · intro v c1 w1 h
    unfold Close at h
    dsimp only at h
    split at h
    · cases h
    · split at h <;> cases h <;> rfl
  · intro hc
    have hw : ∃ w1, (if (!c.isClosed) = true then closeChan w c.closeCh else some w) = some w1 := by
      rcases hc with hc | ⟨ch, h1, h2⟩
      · exact ⟨w, by simp [hc]⟩
      · cases hcl : c.isClosed
        · exact ⟨{ w with closed := ch :: w.closed }, by simp [closeChan, h1, h2]⟩
        · exact ⟨w, by simp⟩
    obtain ⟨w1, hw1⟩ := hw
    unfold Close
    dsimp only
    rw [hw1]
    dsimp only
    cases hconn : c.conn with
    | none => exact ⟨_, _, _, rfl, rfl⟩
    | some s => exact ⟨_, _, _, rfl, rfl⟩

/-- The writes of C1 on a fresh connection. -/
theorem write_after_close_witness :
    Write (sampleEnv none []) (NewNetcodeConn (sampleEnv none []) sampleWorld).1 sampleWorld
        [1, 2]
      = .ret (-1, some .ErrWriteClosedSocket)
          (NewNetcodeConn (sampleEnv none []) sampleWorld).1 sampleWorld ∧
    WriteTo (sampleEnv none []) (NewNetcodeConn (sampleEnv none []) sampleWorld).1 sampleWorld
        [1, 2] sampleAddr
      = .ret (-1, some .ErrWriteClosedSocket)
          (NewNetcodeConn (sampleEnv none []) sampleWorld).1 sampleWorld :=
  (write_after_close (sampleEnv none [])
    (NewNetcodeConn (sampleEnv none []) sampleWorld).1 sampleWorld [1, 2] sampleAddr).1
    (by decide)

/-- C3. When the socket read succeeds with `n` bytes from `sender`, and a
receive handler `h` is registered: `read` returns nil having invoked the handler
exactly once if and only if `1 <= n <= maxBytes`, `NewPacket` accepts the buffer
and the sender IP converts; otherwise the handler is not invoked and `read`
returns `ErrSocketZeroRecv`, `ErrPacketSizeMax`, `ErrInvalidPacket`,
`ErrInvalidIPAddress` in this order of precedence; the handler receives the
first `n` bytes of the buffer and the sender's converted IP with its zone and
its port. -/
theorem read_dispatch (env : Env) (c : NetcodeConn) (w : World) (s : SockId) (h : HandlerId)
    (n : Nat) (sender : UDPAddr) (written : List Byte)
    (hconn : c.conn = some s) (hh : c.recvHandlerFn = some h)
    (hread : env.ReadFromUDP (w.emit (.readFromUDP s c.maxBytes)) s c.maxBytes
      = .ok (n, sender, written)) :
    ((∃ w2, read env c w = .ret none c w2 ∧ handlerCalls w2.trace = handlerCalls w.trace + 1) ↔
      (1 ≤ n ∧ n ≤ c.maxBytes ∧ env.NewPacket (fillBuffer c.maxBytes written) = true ∧
        (env.FromStdIP sender.IP).isSome = true)) ∧
    handlerCalls (w.emit (.readFromUDP s c.maxBytes)).trace = handlerCalls w.trace ∧
    (n = 0 → read env c w
      = .ret (some .ErrSocketZeroRecv) c (w.emit (.readFromUDP s c.maxBytes))) ∧
    (n ≠ 0 → c.maxBytes < n → read env c w
      = .ret (some .ErrPacketSizeMax) c (w.emit (.readFromUDP s c.maxBytes))) ∧
    (n ≠ 0 → n ≤ c.maxBytes → env.NewPacket (fillBuffer c.maxBytes written) = false →
      read env c w = .ret (some .ErrInvalidPacket) c (w.emit (.readFromUDP s c.maxBytes))) ∧
    (n ≠ 0 → n ≤ c.maxBytes → env.NewPacket (fillBuffer c.maxBytes written) = true →
      env.FromStdIP sender.IP = none →
      read env c w = .ret (some .ErrInvalidIPAddress) c (w.emit (.readFromUDP s c.maxBytes))) ∧
    (∀ ip, n ≠ 0 → n ≤ c.maxBytes → env.NewPacket (fillBuffer c.maxBytes written) = true →
      env.FromStdIP sender.IP = some ip →
      read env c w = .ret none c ((w.emit (.readFromUDP s c.maxBytes)).emit
        (.handlerCall h
          { data := (fillBuffer c.maxBytes written).take n
            from_ := { IP := env.WithZone ip sender.Zone, Port := toUint16 sender.Port } }))) ∧
    (0 ≤ sender.Port → sender.Port < 65536 → (toUint16 sender.Port : Int) = sender.Port) := by
  have hr := read_ok env c w s n sender written hconn hread
  rw [hh] at hr
  have hcnt : handlerCalls (w.emit (.readFromUDP s c.maxBytes)).trace = handlerCalls w.trace := by
    simp [handlerCalls_emit]
  have hgood : ∀ ip, n ≠ 0 → n ≤ c.maxBytes →
      env.NewPacket (fillBuffer c.maxBytes written) = true →
      env.FromStdIP sender.IP = some ip →
      read env c w = .ret none c ((w.emit (.readFromUDP s c.maxBytes)).emit
        (.handlerCall h
          { data := (fillBuffer c.maxBytes written).take n
            from_ := { IP := env.WithZone ip sender.Zone, Port := toUint16 sender.Port } })) := by
    intro ip hn0 hn1 hp hip
    rw [hr]; simp [hn0, Nat.not_lt.mpr hn1, hp, hip]
  refine ⟨?_, hcnt, ?_, ?_, ?_, ?_, hgood, ?_⟩
  · constructor
    · rintro ⟨w2, h1, h2⟩
      rw [hr] at h1
      by_cases hn0 : n = 0
      · simp [hn0] at h1
      by_cases hn1 : n > c.maxBytes
      · simp [hn0, hn1] at h1
      by_cases hp : env.NewPacket (fillBuffer c.maxBytes written) = false
      · simp [hn0, hn1, hp] at h1
      cases hip : env.FromStdIP sender.IP with
      | none => simp [hn0, hn1, hp, hip] at h1
      | some ip =>
        refine ⟨Nat.one_le_iff_ne_zero.mpr hn0, Nat.le_of_not_gt hn1, ?_, rfl⟩
        simpa using hp
    · rintro ⟨h1, h2, h3, h4⟩
      obtain ⟨ip, hip⟩ := Option.isSome_iff_exists.mp h4
      have hn0 : n ≠ 0 := Nat.one_le_iff_ne_zero.mp h1
      exact ⟨_, hgood ip hn0 h2 h3 hip, by simp [handlerCalls_emit]⟩
  · intro hn0
    rw [hr]; simp [hn0]
  · intro hn0 hn1
    rw [hr]; simp [hn0, hn1]
  · intro hn0 hn1 hp
    rw [hr]; simp [hn0, Nat.not_lt.mpr hn1, hp]
  · intro hn0 hn1 hp hip
    rw [hr]; simp [hn0, Nat.not_lt.mpr hn1, hp, hip]
  · intro h0 h1
    unfold toUint16
    rw [Int.emod_eq_of_lt h0 h1]
    exact Int.toNat_of_nonneg h0

/-- The dispatch of C3 on a three-byte datagram. -/
theorem read_dispatch_witness :
    read (sampleEnv none [1, 2, 3]) sampleConn sampleWorld
      = .ret none sampleConn ((sampleWorld.emit (.readFromUDP 0 4)).emit
          (.handlerCall 1
            { data := [1, 2, 3]
              from_ := { IP := { addr := [127, 0, 0, 1], zone := "" }, Port := 40000 } })) :=
  (read_dispatch (sampleEnv none [1, 2, 3]) sampleConn sampleWorld 0 1 3 sampleSender [1, 2, 3]
    rfl rfl rfl).2.2.2.2.2.2.1 { addr := [127, 0, 0, 1], zone := "" }
    (by decide) (by decide) (by decide) rfl


/-- C4 (failing input). A datagram of exactly `maxBytes = 4` bytes with a valid
packet type is handed to the handler, although the doc comment of `read`
promises a size below `maxBytes`. -/
theorem read_dispatches_maxBytes :
    sampleConn.maxBytes = 4 ∧
    (sampleEnv none [1, 2, 3, 4]).ReadFromUDP (sampleWorld.emit (.readFromUDP 0 4)) 0 4
      = .ok (4, sampleSender, [1, 2, 3, 4]) ∧
    read (sampleEnv none [1, 2, 3, 4]) sampleConn sampleWorld
      = .ret none sampleConn ((sampleWorld.emit (.readFromUDP 0 4)).emit
          (.handlerCall 1
            { data := [1, 2, 3, 4]
              from_ := { IP := { addr := [127, 0, 0, 1], zone := "" }, Port := 40000 } })) := by
  refine ⟨rfl, rfl, by decide⟩

/-- C10. If the socket read never reports more bytes than the buffer it was
given holds (`maxBytes`, the length `read` allocates), `read` never returns
`ErrPacketSizeMax`; and a datagram longer than `maxBytes`, which the socket
stores truncated, reaches the handler as its first `maxBytes` bytes when the
packet-type and address checks pass. -/
theorem read_never_size_max (env : Env) (c : NetcodeConn) (w : World)
    (hlen : ∀ s n sender written,
      env.ReadFromUDP (w.emit (.readFromUDP s c.maxBytes)) s c.maxBytes
        = .ok (n, sender, written) → n ≤ c.maxBytes) :
    (∀ c1 w1, read env c w ≠ .ret (some .ErrPacketSizeMax) c1 w1) ∧
    (∀ s h dgram sender ip, c.conn = some s → c.recvHandlerFn = some h →
      env.ReadFromUDP (w.emit (.readFromUDP s c.maxBytes)) s c.maxBytes
        = .ok (recvDatagram dgram sender c.maxBytes) →
      0 < c.maxBytes → c.maxBytes < dgram.length →
      env.NewPacket (dgram.take c.maxBytes) = true → env.FromStdIP sender.IP = some ip →
      read env c w = .ret none c ((w.emit (.readFromUDP s c.maxBytes)).emit
        (.handlerCall h
          { data := dgram.take c.maxBytes
            from_ := { IP := env.WithZone ip sender.Zone, Port := toUint16 sender.Port } }))) := by
  constructor
  · intro c1 w1 hret
    cases hconn : c.conn with
    | none => rw [read_conn_nil env c w hconn] at hret; cases hret
    | some s =>
      cases hrd : env.ReadFromUDP (w.emit (.readFromUDP s c.maxBytes)) s c.maxBytes with
      | error e => simp [read, hconn, hrd] at hret
      | ok r =>
        obtain ⟨n, sender, written⟩ := r
        have hn := hlen s n sender written hrd
        rw [read_ok env c w s n sender written hconn hrd] at hret
        split_ifs at hret with h1 h2 h3
        · cases hret
        · omega
        · cases hret
        · split at hret
          · cases hret
          · split at hret <;> cases hret
  · intro s h dgram sender ip hconn hh hrd hpos hlong hpkt hip
    have hfill : fillBuffer c.maxBytes (dgram.take c.maxBytes) = dgram.take c.maxBytes := by
      unfold fillBuffer
      rw [List.take_append_of_le_length (by simp; omega)]
      simp
    have hmin : min dgram.length c.maxBytes = c.maxBytes := by omega
    rw [read_ok env c w s _ sender _ hconn hrd, hh, hip, hfill, hmin, hpkt]
    simp [Nat.pos_iff_ne_zero.mp hpos, List.take_take]

/-- The truncation of C10 on a six-byte datagram with `maxBytes = 4`. -/
theorem read_never_size_max_witness :
    read (sampleEnv none [1, 2, 3, 4, 5, 6]) sampleConn sampleWorld
      = .ret none sampleConn ((sampleWorld.emit (.readFromUDP 0 4)).emit
          (.handlerCall 1
            { data := [1, 2, 3, 4]
              from_ := { IP := { addr := [127, 0, 0, 1], zone := "" }, Port := 40000 } })) :=
  (read_never_size_max (sampleEnv none [1, 2, 3, 4, 5, 6]) sampleConn sampleWorld (by
    intro s n sender written h
    simp only [sampleEnv, recvDatagram] at h
    split_ifs at h
    cases h
    exact Nat.min_le_right _ _)).2 0 1 [1, 2, 3, 4, 5, 6] sampleSender
    { addr := [127, 0, 0, 1], zone := "" } rfl rfl rfl (by decide) (by decide) rfl rfl

theorem chanClosed_emit (w : World) (e : Event) (ch : Option ChanId) :
    chanClosed (w.emit e) ch = chanClosed w ch := by
  cases ch <;> rfl

theorem chanClosed_congr (w1 w : World) (ch : Option ChanId) (h : w1.closed = w.closed) :
    chanClosed w1 ch = chanClosed w ch := by
  cases ch with
  | none => rfl
  | some i => simp [chanClosed, h]

/-- A `read` that returns leaves the connection and the channels as they were,
and was made on a connection that holds a socket. -/
theorem read_ret (env : Env) (c : NetcodeConn) (w : World) (v : Option NetError)
    (c1 : NetcodeConn) (w1 : World) (h : read env c w = .ret v c1 w1) :
    c1 = c ∧ w1.closed = w.closed ∧ c.conn ≠ none := by
  unfold read at h
  split at h
  · cases h
  · rename_i s hs
    have hc : c.conn ≠ none := by simp [hs]
    dsimp only at h
    split at h
    · cases h; exact ⟨rfl, rfl, hc⟩
    · split_ifs at h
      · cases h; exact ⟨rfl, rfl, hc⟩
      · cases h; exact ⟨rfl, rfl, hc⟩
      · cases h; exact ⟨rfl, rfl, hc⟩
      · split at h
        · cases h; exact ⟨rfl, rfl, hc⟩
        · split at h
          · cases h
          · cases h; exact ⟨rfl, rfl, hc⟩

/-- A `read` that returns nil has invoked the handler as its last operation. -/
theorem read_nil_trace (env : Env) (c : NetcodeConn) (w : World)
    (c1 : NetcodeConn) (w0 : World) (hr : read env c w = .ret none c1 w0) :
    ∃ t h d, w0.trace = t ++ [.handlerCall h d] := by
  unfold read at hr
  split at hr
  · cases hr
  · dsimp only at hr
    split at hr
    · cases hr
    · split_ifs at hr
      · cases hr
      · cases hr
      · cases hr
      · split at hr
        · cases hr
        · split at hr
          · cases hr
          · cases hr
            exact ⟨_, _, _, rfl⟩

/-- The two exits of one pass of the `receiver` loop. -/
theorem receiverIter_returned (env : Env) (c : NetcodeConn) (w : World)
    (c1 : NetcodeConn) (w1 : World) (h : receiverIter env c w = .ret .returned c1 w1) :
    c1 = c ∧ w1.closed = w.closed ∧ c.conn ≠ none ∧
    (chanClosed w1 c.closeCh = true ∨ c.isClosed = true) := by
  unfold receiverIter at h
  cases hr : read env c w with
  | panic c2 w2 => rw [hr] at h; cases h
  | ret v c2 w2 =>
    obtain ⟨hc2, hcl2, hconn⟩ := read_ret env c w v c2 w2 hr
    subst hc2
    rw [hr] at h
    cases v with
    | none =>
      dsimp only at h
      split_ifs at h with hcl
      · cases h
        exact ⟨rfl, hcl2, hconn, Or.inl hcl⟩
      · cases h
    | some err =>
      dsimp only at h
      split_ifs at h with hcl
      · cases h
        exact ⟨rfl, hcl2, hconn, Or.inr hcl⟩
      · cases h

/-- A pass of the loop that goes on leaves the connection and the channels as
they were. -/
theorem receiverIter_continued (env : Env) (c : NetcodeConn) (w : World)
    (c1 : NetcodeConn) (w1 : World) (h : receiverIter env c w = .ret .continued c1 w1) :
    c1 = c ∧ w1.closed = w.closed := by
  unfold receiverIter at h
  cases hr : read env c w with
  | panic c2 w2 => rw [hr] at h; cases h
  | ret v c2 w2 =>
    obtain ⟨hc2, hcl2, _⟩ := read_ret env c w v c2 w2 hr
    subst hc2
    rw [hr] at h
    cases v with
    | none =>
      dsimp only at h
      split_ifs at h with hcl
      · cases h
      · cases h
        exact ⟨rfl, hcl2⟩
    | some err =>
      dsimp only at h
      split_ifs at h with hcl
      · cases h
      · cases h
        exact ⟨rfl, hcl2⟩

theorem closeSignalled_new (env : Env) (w0 : World) :
    closeSignalled (NewNetcodeConn env w0).1 (NewNetcodeConn env w0).2 := by
  intro h
  exact absurd rfl h

theorem closeSignalled_congr (c : NetcodeConn) (w w1 : World) (h : w1.closed = w.closed)
    (hI : closeSignalled c w) : closeSignalled c w1 := by
  intro h1 h2
  rw [chanClosed_congr w1 w c.closeCh h]
  exact hI h1 h2

theorem create_ret (c : NetcodeConn) (w : World) (v : Option NetError)
    (c1 : NetcodeConn) (w1 : World) (h : create c w = .ret v c1 w1) :
    c1.isClosed = false := by
  unfold create at h
  dsimp only at h
  split at h
  · cases h
  · cases h; rfl

theorem closeSignalled_Dial (env : Env) (c : NetcodeConn) (w : World) (a : IPPort)
    (v : Option NetError) (c1 : NetcodeConn) (w1 : World)
    (hI : closeSignalled c w) (h : Dial env c w a = .ret v c1 w1) : closeSignalled c1 w1 := by
  unfold Dial at h
  split_ifs at h with hg
  · cases h; exact hI
  · simp only [makeChan] at h
    split at h
    · cases h
      intro hc
      exact absurd rfl hc
    · intro _ hcl
      rw [create_ret _ _ _ _ _ h] at hcl
      cases hcl

theorem closeSignalled_Listen (env : Env) (c : NetcodeConn) (w : World) (a : IPPort)
    (v : Option NetError) (c1 : NetcodeConn) (w1 : World)
    (hI : closeSignalled c w) (h : Listen env c w a = .ret v c1 w1) : closeSignalled c1 w1 := by
  unfold Listen at h
  split_ifs at h with hg
  · cases h; exact hI
  · dsimp only at h
    split at h
    · cases h
      intro hc
      exact absurd rfl hc
    · split at h
      · rename_i hcr
        cases h
        intro _ hcl
        rw [create_ret _ _ _ _ _ hcr] at hcl
        cases hcl
      · cases h

theorem closeSignalled_Close (env : Env) (c : NetcodeConn) (w : World)
    (v : Option NetError) (c1 : NetcodeConn) (w1 : World)
    (hI : closeSignalled c w) (h : Close env c w = .ret v c1 w1) : closeSignalled c1 w1 := by
  have key : ∀ w2 : World,
      (if (!c.isClosed) = true then closeChan w c.closeCh else some w) = some w2 →
      c.conn ≠ none → chanClosed w2 c.closeCh = true := by
    intro w2 hw2 hconn
    cases hcl : c.isClosed with
    | true =>
      simp only [hcl, Bool.not_true, Bool.false_eq_true, if_false, Option.some.injEq] at hw2
      rw [← hw2]
      exact hI hconn hcl
    | false =>
      simp only [hcl, Bool.not_false, if_true] at hw2
      unfold closeChan at hw2
      split at hw2
      · cases hw2
      · rename_i i hi
        split_ifs at hw2
        cases hw2
        simp [chanClosed, hi]
  unfold Close at h
  dsimp only at h
  split at h
  · cases h
  · rename_i w2 hw2
    split at h
    · rename_i s hs
      cases h
      intro hconn _
      rw [chanClosed_emit]
      exact key w2 hw2 hconn
    · rename_i hs
      cases h
      intro hconn _
      exact absurd hs hconn

theorem closeSignalled_applyOp (env : Env) (op : Op) (c : NetcodeConn) (w : World)
    (c1 : NetcodeConn) (w1 : World)
    (hI : closeSignalled c w) (h : applyOp env op c w = .ret () c1 w1) :
    closeSignalled c1 w1 := by
  cases op with
  | SetRecvHandler hd =>
    simp only [applyOp] at h
    cases h
    exact hI
  | Listen a =>
    simp only [applyOp] at h
    split at h
    · rename_i hl
      cases h
      exact closeSignalled_Listen env c w a _ _ _ hI hl
    · cases h
  | Dial a =>
    simp only [applyOp] at h
    split at h
    · rename_i hl
      cases h
      exact closeSignalled_Dial env c w a _ _ _ hI hl
    · cases h
  | Close =>
    simp only [applyOp] at h
    split at h
    · rename_i hl
      cases h
      exact closeSignalled_Close env c w _ _ _ hI hl
    · cases h

theorem closeSignalled_runOps (env : Env) (ops : List Op) :
    ∀ (c : NetcodeConn) (w : World) (c1 : NetcodeConn) (w1 : World),
      closeSignalled c w → runOps env ops c w = .ret () c1 w1 → closeSignalled c1 w1 := by
  induction ops with
  | nil =>
    intro c w c1 w1 hI h
    simp only [runOps] at h
    cases h
    exact hI
  | cons op ops ih =>
    intro c w c1 w1 hI h
    simp only [runOps] at h
    split at h
    · rename_i c2 w2 hop
      exact ih c2 w2 c1 w1 (closeSignalled_applyOp env op c w c2 w2 hI hop) h
    · cases h

/-- A run of `receiver` that starts in a state where a set flag implies a closed
channel returns only with `closeCh` closed. -/
theorem receiver_returned (env : Env) (sched : List (List Op)) :
    ∀ (c : NetcodeConn) (w : World) (c1 : NetcodeConn) (w1 : World),
      closeSignalled c w → receiver env sched c w = .ret true c1 w1 →
      chanClosed w1 c1.closeCh = true := by
  induction sched with
  | nil => intro c w c1 w1 _ h; simp [receiver] at h
  | cons ops rest ih =>
    intro c w c1 w1 hI h
    unfold receiver at h
    split at h
    · cases h
    · rename_i c2 w2 hops
      have hI2 : closeSignalled c2 w2 := closeSignalled_runOps env ops c w c2 w2 hI hops
      split at h
      · cases h
      · rename_i c3 w3 hit
        cases h
        obtain ⟨hc, hcl, hconn, hcase⟩ := receiverIter_returned env c2 w2 c1 w1 hit
        subst hc
        rcases hcase with hch | hflag
        · exact hch
        · rw [chanClosed_congr w1 w2 _ hcl]
          exact hI2 hconn hflag
      · rename_i c3 w3 hit
        obtain ⟨hc, hcl⟩ := receiverIter_continued env c2 w2 c3 w3 hit
        subst hc
        exact ih c3 w3 c1 w1 (closeSignalled_congr c3 w2 w3 hcl hI2) h

/-- C8. In every state reached from `NewNetcodeConn` through calls of
`SetRecvHandler`, `Listen`, `Dial` and `Close`, and for every schedule of
further such calls between the passes of the loop: `receiver` returns only in a
state where `closeCh` has been closed, and a pass returns exactly after a
successful read that finds `closeCh` closed or a failed read on a closed
connection (whose `closeCh` is then closed); a failed read on a connection that
has not been closed is logged and the loop continues; and after a successful
read the handler call is the last operation before the loop inspects
`closeCh`. -/
theorem receiver_cancellation (env : Env) (w0 : World) (ops : List Op)
    (c : NetcodeConn) (w : World)
    (hreach : runOps env ops (NewNetcodeConn env w0).1 (NewNetcodeConn env w0).2
      = .ret () c w) :
    (∀ sched c1 w1, receiver env sched c w = .ret true c1 w1 →
      chanClosed w1 c1.closeCh = true) ∧
    (∀ c1 w1, receiverIter env c w = .ret .returned c1 w1 →
      c1 = c ∧ chanClosed w1 c.closeCh = true) ∧
    (∀ w2, read env c w = .ret none c w2 → chanClosed w c.closeCh = true →
      receiverIter env c w = .ret .returned c (w2.emit (.recvCloseCh c.closeCh))) ∧
    (∀ err w2, read env c w = .ret (some err) c w2 → c.isClosed = true →
      receiverIter env c w = .ret .returned c w2 ∧ chanClosed w2 c.closeCh = true) ∧
    (∀ err w2, read env c w = .ret (some err) c w2 → c.isClosed = false →
      receiverIter env c w = .ret .continued c (w2.emit (.logPrintf err))) ∧
    (∀ w2, read env c w = .ret none c w2 → chanClosed w c.closeCh = false →
      receiverIter env c w = .ret .continued c (w2.emit (.recvCloseCh c.closeCh))) ∧
    (∀ w2, read env c w = .ret none c w2 →
      ∃ t h d ctl w3, w2.trace = t ++ [.handlerCall h d] ∧
        receiverIter env c w = .ret ctl c w3 ∧
        w3.trace = t ++ [.handlerCall h d, .recvCloseCh c.closeCh]) := by
  have hI : closeSignalled c w :=
    closeSignalled_runOps env ops _ _ c w (closeSignalled_new env w0) hreach
  refine ⟨fun sched c1 w1 => receiver_returned env sched c w c1 w1 hI, ?_, ?_, ?_, ?_, ?_, ?_⟩
  · intro c1 w1 h
    obtain ⟨hc, hcl, hconn, hcase⟩ := receiverIter_returned env c w c1 w1 h
    refine ⟨hc, ?_⟩
    rcases hcase with hch | hflag
    · exact hch
    · rw [chanClosed_congr w1 w _ hcl]
      exact hI hconn hflag
  · intro w2 hr hcl
    obtain ⟨_, hcl2, _⟩ := read_ret env c w none c w2 hr
    have : chanClosed (w2.emit (.recvCloseCh c.closeCh)) c.closeCh = true := by
      rw [chanClosed_emit, chanClosed_congr w2 w _ hcl2]
      exact hcl
    simp [receiverIter, hr, this]
  · intro err w2 hr hflag
    obtain ⟨_, hcl2, hconn⟩ := read_ret env c w (some err) c w2 hr
    refine ⟨by simp [receiverIter, hr, hflag], ?_⟩
    rw [chanClosed_congr w2 w _ hcl2]
    exact hI hconn hflag
  · intro err w2 hr hflag
    simp [receiverIter, hr, hflag]
  · intro w2 hr hcl
    obtain ⟨_, hcl2, _⟩ := read_ret env c w none c w2 hr
    have : chanClosed (w2.emit (.recvCloseCh c.closeCh)) c.closeCh = false := by
      rw [chanClosed_emit, chanClosed_congr w2 w _ hcl2]
      exact hcl
    simp [receiverIter, hr, this]
  · intro w2 hr
    obtain ⟨t, h, d, ht⟩ := read_nil_trace env c w c w2 hr
    by_cases hcl : chanClosed (w2.emit (.recvCloseCh c.closeCh)) c.closeCh = true
    · refine ⟨t, h, d, .returned, w2.emit (.recvCloseCh c.closeCh), ht, ?_, ?_⟩
      · simp [receiverIter, hr, hcl]
      · simp [World.emit, ht]
    · refine ⟨t, h, d, .continued, w2.emit (.recvCloseCh c.closeCh), ht, ?_, ?_⟩
      · simp [receiverIter, hr, hcl]
      · simp [World.emit, ht]

/-- The cancellation of C8 after `SetRecvHandler; Listen; Close`: the read on
the closed socket fails and the pass returns, with `closeCh` closed. -/
theorem receiver_cancellation_witness :
    receiverIter (sampleEnv none [1, 2, 3]) closedState.1 closedState.2
      = .ret .returned closedState.1 (closedState.2.emit (.readFromUDP 0 4)) ∧
    chanClosed (closedState.2.emit (.readFromUDP 0 4)) closedState.1.closeCh = true :=
  (receiver_cancellation (sampleEnv none [1, 2, 3]) sampleWorld
    [.SetRecvHandler (some 1), .Listen sampleAddr, .Close] closedState.1 closedState.2
    (by decide)).2.2.2.1 (.sys EINVAL) (closedState.2.emit (.readFromUDP 0 4))
    (by decide) (by decide)

/-- C9 (failing input). After `SetRecvHandler; Listen; Close; Listen` on a fresh
connection, with every socket call succeeding, `isClosed` is false while
`closeCh` is the channel the first `Close` closed: the next `Close` panics, and
the receive loop of the second `Listen` returns after its first successful
read. -/
theorem relisten_keeps_closed_channel :
    ∃ c w w1,
      runOps (sampleEnv none [1, 2, 3]) relisten
        (NewNetcodeConn (sampleEnv none [1, 2, 3]) sampleWorld).1
        (NewNetcodeConn (sampleEnv none [1, 2, 3]) sampleWorld).2 = .ret () c w ∧
      c.isClosed = false ∧ chanClosed w c.closeCh = true ∧
      Close (sampleEnv none [1, 2, 3]) c w = .panic c w ∧
      runOps (sampleEnv none [1, 2, 3]) (relisten ++ [.Close])
        (NewNetcodeConn (sampleEnv none [1, 2, 3]) sampleWorld).1
        (NewNetcodeConn (sampleEnv none [1, 2, 3]) sampleWorld).2 = .panic c w ∧
      read (sampleEnv none [1, 2, 3]) c w = .ret none c w1 ∧
      receiverIter (sampleEnv none [1, 2, 3]) c w
        = .ret .returned c (w1.emit (.recvCloseCh c.closeCh)) := by
  refine ⟨_, _, _, rfl, by decide, by decide, by decide, by decide, rfl, by decide⟩

/-! ## Helper lemmas on the linear scan -/

theorem findSlot_eq_none {α : Type} (p : α → Bool) (l : List α) :
    findSlot p l = none ↔ ∀ x ∈ l, p x = false := by
  induction l with
  | nil => simp [findSlot]
  | cons a l ih =>
    by_cases ha : p a = true
    · simp [findSlot, ha]
    · simp [findSlot, ha, ih]

theorem findSlot_some {α : Type} (p : α → Bool) (l : List α) (i : Nat)
    (h : findSlot p l = some i) : ∃ x, l[i]? = some x ∧ p x = true := by
  induction l generalizing i with
  | nil => simp [findSlot] at h
  | cons a l ih =>
    by_cases ha : p a = true
    · simp [findSlot, ha] at h
      subst h
      exact ⟨a, by simp, ha⟩
    · simp only [findSlot, ha, Bool.false_eq_true, if_false, Option.map_eq_some'] at h
      obtain ⟨j, hj, rfl⟩ := h
      obtain ⟨x, hx, hpx⟩ := ih j hj
      exact ⟨x, by simpa using hx, hpx⟩

theorem findSlot_append_of_all_false {α : Type} (p : α → Bool) (l1 l2 : List α)
    (h : ∀ x ∈ l1, p x = false) :
    findSlot p (l1 ++ l2) = (findSlot p l2).map (· + l1.length) := by
  induction l1 with
  | nil => simp
  | cons a l ih =>
    have ha : p a = false := h a (by simp)
    have ih := ih (fun x hx => h x (by simp [hx]))
    show findSlot p (a :: (l ++ l2)) = _
    rw [findSlot, ih]
    cases findSlot p l2 with
    | none => simp [ha]
    | some j => simp [ha, Nat.add_assoc]

theorem findSlot_congr {α : Type} (p q : α → Bool) (l : List α)
    (h : ∀ x ∈ l, p x = q x) : findSlot p l = findSlot q l := by
  induction l with
  | nil => rfl
  | cons a l ih =>
    have ha : p a = q a := h a (by simp)
    have ih := ih (fun x hx => h x (by simp [hx]))
    simp [findSlot, ha, ih]

theorem findSlot_map {α β : Type} (p : β → Bool) (f : α → β) (l : List α) :
    findSlot p (l.map f) = findSlot (fun x => p (f x)) l := by
  induction l with
  | nil => rfl
  | cons a l ih => simp [findSlot, ih]

theorem findSlot_set_of_all_false {α : Type} (p : α → Bool) (l : List α) (i : Nat) (x : α)
    (h : ∀ y ∈ l, p y = false) (hi : i < l.length) (hx : p x = true) :
    findSlot p (l.set i x) = some i := by
  induction l generalizing i with
  | nil => simp at hi
  | cons a l ih =>
    cases i with
    | zero => simp [findSlot, hx]
    | succ i =>
      have ha : p a = false := h a (by simp)
      have ih := ih i (fun y hy => h y (by simp [hy])) (by simpa using hi)
      simp [findSlot, ha, ih]

theorem toIndex_eq_neg_one (o : Option Nat) : toIndex o = -1 ↔ o = none := by
  cases o with
  | none => simp [toIndex]
  | some i => simp [toIndex]

theorem modify_eq_self_of_fixed {α : Type} (f : α → α) (l : List α) (i : Nat) (x : α)
    (hx : l[i]? = some x) (hf : f x = x) : l.modify f i = l := by
  induction l generalizing i with
  | nil => simp at hx
  | cons a l ih =>
    cases i with
    | zero =>
      simp at hx
      subst hx
      simp [List.modify, hf]
    | succ i =>
      simp at hx
      simpa [List.modify] using ih i hx

theorem countP_set_of_getElem? {α : Type} (p : α → Bool) (l : List α) (i : Nat) (x y : α)
    (hy : l[i]? = some y) :
    (l.set i x).countP p + (if p y then 1 else 0) = l.countP p + (if p x then 1 else 0) := by
  induction l generalizing i with
  | nil => simp at hy
  | cons a l ih =>
    cases i with
    | zero =>
      simp at hy
      subst hy
      simp only [List.set_cons_zero, List.countP_cons]
      omega
    | succ i =>
      simp at hy
      have := ih i hy
      simp only [List.set_cons_succ, List.countP_cons]
      omega

theorem modify_eq_set_of_getElem? {α : Type} (f : α → α) (l : List α) (i : Nat) (y : α)
    (hy : l[i]? = some y) : l.modify f i = l.set i (f y) := by
  induction l generalizing i with
  | nil => simp at hy
  | cons a l ih =>
    cases i with
    | zero =>
      simp at hy
      subst hy
      simp [List.modify]
    | succ i =>
      simp at hy
      simpa [List.modify] using ih i hy

/-! ## Helper lemmas on the mapping table -/

theorem mem_filledTable (tok : ConnectTokenPrivate) (st et : Time) (P : List IPPort) (m : Nat)
    (x : Option encryptionEntry) (hx : x ∈ filledTable tok st et P m) :
    x = none ∨ ∃ a ∈ P, x = some (mkEntry tok st et a) := by
  simp only [filledTable, List.mem_append, List.mem_map, List.mem_replicate] at hx
  rcases hx with ⟨a, ha, rfl⟩ | ⟨_, rfl⟩
  · exact Or.inr ⟨a, ha, rfl⟩
  · exact Or.inl rfl

theorem filledTable_not_liveFor (tok : ConnectTokenPrivate) (st et : Time) (P : List IPPort)
    (m : Nat) (a : IPPort) (ha : a ∉ P) :
    ∀ x ∈ filledTable tok st et P m, slotLiveFor a st x = false := by
  intro x hx
  rcases mem_filledTable tok st et P m x hx with rfl | ⟨b, hb, rfl⟩
  · rfl
  · have hne : b ≠ a := fun h => ha (h ▸ hb)
    simp [slotLiveFor, mkEntry, hne]

theorem filledTable_liveCount (tok : ConnectTokenPrivate) (st et : Time) (hlive : st < et)
    (P : List IPPort) (m : Nat) :
    (filledTable tok st et P m).countP (slotLive st) = P.length := by
  simp only [filledTable, List.countP_append, List.countP_map]
  have h1 : List.countP (slotLive st ∘ fun a => some (mkEntry tok st et a)) P = P.length := by
    rw [List.countP_eq_length]
    intro a _
    simp [slotLive, mkEntry, hlive]
  have h2 : List.countP (slotLive st) (List.replicate m (none : Option encryptionEntry)) = 0 := by
    rw [List.countP_eq_zero]
    intro x hx
    rw [List.mem_replicate] at hx
    rw [hx.2]
    simp [slotLive]
  rw [h1, h2]
  rfl

theorem filledTable_first_free (tok : ConnectTokenPrivate) (st et : Time) (hlive : st < et)
    (P : List IPPort) (k : Nat) :
    findSlot (fun s => !slotLive st s) (filledTable tok st et P (k + 1)) = some P.length := by
  unfold filledTable
  rw [findSlot_append_of_all_false]
  · simp [List.replicate_succ, findSlot, slotLive]
  · intro x hx
    simp only [List.mem_map] at hx
    obtain ⟨a, _, rfl⟩ := hx
    simp [slotLive, mkEntry, hlive]

theorem filledTable_set (tok : ConnectTokenPrivate) (st et : Time) (P : List IPPort) (k : Nat)
    (a : IPPort) :
    (filledTable tok st et P (k + 1)).set P.length (some (mkEntry tok st et a))
      = filledTable tok st et (P ++ [a]) k := by
  unfold filledTable
  rw [List.set_append_right _ _ (by simp)]
  simp [List.replicate_succ]

theorem filledTable_present (tok : ConnectTokenPrivate) (st et : Time) (hlive : st < et)
    (P : List IPPort) (m : Nat) (a : IPPort) (ha : a ∈ P) :
    ∃ i, findSlot (slotLiveFor a st) (filledTable tok st et P m) = some i ∧
      (filledTable tok st et P m)[i]? = some (some (mkEntry tok st et a)) := by
  have hmem : some (mkEntry tok st et a) ∈ filledTable tok st et P m := by
    simp only [filledTable, List.mem_append, List.mem_map]
    exact Or.inl ⟨a, ha, rfl⟩
  have hp : slotLiveFor a st (some (mkEntry tok st et a)) = true := by
    simp [slotLiveFor, mkEntry, hlive]
  cases hf : findSlot (slotLiveFor a st) (filledTable tok st et P m) with
  | none =>
    rw [findSlot_eq_none] at hf
    rw [hf _ hmem] at hp
    cases hp
  | some i =>
    obtain ⟨x, hx, hpx⟩ := findSlot_some _ _ _ hf
    refine ⟨i, rfl, ?_⟩
    rw [hx]
    rcases mem_filledTable tok st et P m x (List.getElem?_mem hx) with rfl | ⟨b, _, rfl⟩
    · simp [slotLiveFor] at hpx
    · have hb : b = a := by
        simp only [slotLiveFor, mkEntry, Bool.and_eq_true, decide_eq_true_eq] at hpx
        exact hpx.1
      rw [hb]

/-- Adding a new address to a table with a free slot stores it in that slot. -/
theorem add_new_of_free (cm : ClientManager) (tok : ConnectTokenPrivate) (st et : Time)
    (hlive : st < et) (P : List IPPort) (k : Nat) (a : IPPort) (ha : a ∉ P)
    (htbl : cm.cryptoEntries = filledTable tok st et P (k + 1))
    (hcap : cm.maxClients = P.length + (k + 1)) :
    AddEncryptionMapping cm tok a st et
      = (true, { cm with cryptoEntries := filledTable tok st et (P ++ [a]) k }) := by
  have h1 : findSlot (slotLiveFor a st) cm.cryptoEntries = none := by
    rw [findSlot_eq_none, htbl]
    exact filledTable_not_liveFor tok st et P (k + 1) a ha
  have h2 : liveCount cm st = P.length := by
    rw [liveCount, htbl, filledTable_liveCount tok st et hlive]
  have h3 : findSlot (fun s => !slotLive st s) cm.cryptoEntries = some P.length := by
    rw [htbl, filledTable_first_free tok st et hlive]
  have h4 : ¬ cm.maxClients ≤ liveCount cm st := by omega
  unfold AddEncryptionMapping
  rw [h1]
  simp only [h4, if_false, h3]
  rw [htbl]
  exact congrArg (fun t => (true, ({ cm with cryptoEntries := t } : ClientManager)))
    (filledTable_set tok st et P k a)

/-- Adding a new address to a full table fails without mutation. -/
theorem add_new_of_full (cm : ClientManager) (tok tok1 : ConnectTokenPrivate) (st et : Time)
    (hlive : st < et) (P : List IPPort) (a : IPPort) (ha : a ∉ P)
    (htbl : cm.cryptoEntries = filledTable tok st et P 0)
    (hcap : cm.maxClients = P.length) :
    AddEncryptionMapping cm tok1 a st et = (false, cm) := by
  have h1 : findSlot (slotLiveFor a st) cm.cryptoEntries = none := by
    rw [findSlot_eq_none, htbl]
    exact filledTable_not_liveFor tok st et P 0 a ha
  have h2 : liveCount cm st = P.length := by
    rw [liveCount, htbl, filledTable_liveCount tok st et hlive]
  have h4 : cm.maxClients ≤ liveCount cm st := by omega
  unfold AddEncryptionMapping
  rw [h1]
  simp only [h4, if_true]

/-- Adding again, with the same token and times, an address the table holds
changes nothing. -/
theorem add_present_same (cm : ClientManager) (tok : ConnectTokenPrivate) (st et : Time)
    (hlive : st < et) (P : List IPPort) (m : Nat) (a : IPPort) (ha : a ∈ P)
    (htbl : cm.cryptoEntries = filledTable tok st et P m) :
    AddEncryptionMapping cm tok a st et = (true, cm) := by
  obtain ⟨i, hi, hget⟩ := filledTable_present tok st et hlive P m a ha
  rw [← htbl] at hi hget
  unfold AddEncryptionMapping
  rw [hi]
  simp only
  rw [modify_eq_self_of_fixed _ _ i _ hget (by simp [mkEntry])]

/-- Re-adding an address that has a live mapping succeeds and keeps the number
of live mappings. -/
theorem add_live_keeps_count (cm : ClientManager) (tok : ConnectTokenPrivate) (st et : Time)
    (hlive : st < et) (a : IPPort) (i : Nat)
    (hi : findSlot (slotLiveFor a st) cm.cryptoEntries = some i) :
    (AddEncryptionMapping cm tok a st et).1 = true ∧
    liveCount (AddEncryptionMapping cm tok a st et).2 st = liveCount cm st := by
  obtain ⟨x, hx, hpx⟩ := findSlot_some _ _ _ hi
  unfold AddEncryptionMapping
  rw [hi]
  refine ⟨rfl, ?_⟩
  simp only [liveCount]
  rw [modify_eq_set_of_getElem? _ _ i x hx]
  have := countP_set_of_getElem? (slotLive st) cm.cryptoEntries i
    (Option.map (fun e : encryptionEntry =>
      { e with sendKey := tok.ServerKey, recvKey := tok.ClientKey
               expireTime := et, lastAccess := st }) x) x hx
  cases x with
  | none => simp [slotLiveFor] at hpx
  | some e =>
    have hlt : st < e.expireTime := by
      simp only [slotLiveFor, Bool.and_eq_true, decide_eq_true_eq] at hpx
      exact hpx.2
    simp only [Option.map_some', slotLive, hlive, hlt, decide_True, if_true] at this
    simpa using this

theorem range_map_succ (n m : Nat) :
    (List.range (n + 1)).map (fun i => decide (i < m + 1))
      = true :: (List.range n).map (fun i => decide (i < m)) := by
  rw [List.range_succ_eq_map]
  simp [Function.comp_def]

theorem range_map_zero (n : Nat) :
    (List.range (n + 1)).map (fun i => decide (i < 0))
      = false :: (List.range n).map (fun i => decide (i < 0)) := by
  rw [List.range_succ_eq_map]
  simp [Function.comp_def]

/-- Adding pairwise distinct new addresses to a table with `m` free slots: the
first `m` are stored, the others rejected. -/
theorem addAll_filledTable (tok : ConnectTokenPrivate) (st et : Time) (hlive : st < et)
    (L : List IPPort) :
    ∀ (cm : ClientManager) (P : List IPPort) (m : Nat), (P ++ L).Nodup →
      cm.cryptoEntries = filledTable tok st et P m → cm.maxClients = P.length + m →
      (addAll cm tok st et L).1 = (List.range L.length).map (fun i => decide (i < m)) ∧
      (addAll cm tok st et L).2
        = { cm with cryptoEntries := filledTable tok st et (P ++ L.take m) (m - L.length) } := by
  induction L with
  | nil =>
    intro cm P m _ htbl _
    simp [addAll, ← htbl]
  | cons a L ih =>
    intro cm P m hnd htbl hcap
    have haP : a ∉ P := by
      intro h
      have := List.nodup_append.mp hnd
      exact this.2.2 h (by simp)
    cases m with
    | zero =>
      have hadd := add_new_of_full cm tok tok st et hlive P a haP htbl (by simpa using hcap)
      have hnd1 : (P ++ L).Nodup := by
        have h := List.nodup_append.mp hnd
        refine List.nodup_append.mpr ⟨h.1, (List.nodup_cons.mp h.2.1).2, ?_⟩
        intro x hx hx1
        exact h.2.2 hx (by simp [hx1])
      obtain ⟨ih1, ih2⟩ := ih cm P 0 hnd1 htbl hcap
      simp only [addAll, hadd, List.length_cons]
      rw [range_map_zero, ih1, ih2]
      simp
    | succ k =>
      have hadd := add_new_of_free cm tok st et hlive P k a haP htbl hcap
      have hnd1 : ((P ++ [a]) ++ L).Nodup := by simpa using hnd
      obtain ⟨ih1, ih2⟩ := ih { cm with cryptoEntries := filledTable tok st et (P ++ [a]) k }
        (P ++ [a]) k hnd1 rfl (by simp [hcap]; omega)
      simp only [addAll, hadd, List.length_cons]
      rw [range_map_succ, ih1, ih2]
      simp

/-- C5. On a manager built by `NewClientManager(timeout, maxClients)`, with a
fixed `serverTime` and a later `expireTime`, adding mappings for pairwise
distinct addresses returns true for each of the first `maxClients` addresses and
false for every later one, and the rejected calls leave the table as the first
`maxClients` calls left it; re-adding an address that is present returns true
and keeps the number of live mappings (with the same token and times it changes
nothing); adding any further address once `maxClients` are present returns false
and leaves the manager unchanged. -/
theorem AddEncryptionMapping_capacity (timeout : Time) (maxClients : Nat)
    (tok : ConnectTokenPrivate) (addrs : List IPPort) (st et : Time)
    (hnd : addrs.Nodup) (hlive : st < et) :
    (addAll (NewClientManager timeout maxClients) tok st et addrs).1
      = (List.range addrs.length).map (fun i => decide (i < maxClients)) ∧
    (addAll (NewClientManager timeout maxClients) tok st et addrs).2
      = (addAll (NewClientManager timeout maxClients) tok st et (addrs.take maxClients)).2 ∧
    liveCount (addAll (NewClientManager timeout maxClients) tok st et addrs).2 st
      = min addrs.length maxClients ∧
    (∀ a ∈ addrs.take maxClients, ∀ tok1,
      (AddEncryptionMapping (addAll (NewClientManager timeout maxClients) tok st et addrs).2
        tok1 a st et).1 = true ∧
      liveCount (AddEncryptionMapping
        (addAll (NewClientManager timeout maxClients) tok st et addrs).2 tok1 a st et).2 st
        = liveCount (addAll (NewClientManager timeout maxClients) tok st et addrs).2 st) ∧
    (∀ a ∈ addrs.take maxClients,
      AddEncryptionMapping (addAll (NewClientManager timeout maxClients) tok st et addrs).2
        tok a st et
        = (true, (addAll (NewClientManager timeout maxClients) tok st et addrs).2)) ∧
    (∀ b, b ∉ addrs → maxClients ≤ addrs.length → ∀ tok1,
      AddEncryptionMapping (addAll (NewClientManager timeout maxClients) tok st et addrs).2
        tok1 b st et
        = (false, (addAll (NewClientManager timeout maxClients) tok st et addrs).2)) := by
  have hnew : (NewClientManager timeout maxClients).cryptoEntries
      = filledTable tok st et [] maxClients := by
    simp [NewClientManager, filledTable]
  obtain ⟨h1, h2⟩ := addAll_filledTable tok st et hlive addrs
    (NewClientManager timeout maxClients) [] maxClients (by simpa using hnd) hnew
    (by simp [NewClientManager])
  obtain ⟨_, h2t⟩ := addAll_filledTable tok st et hlive (addrs.take maxClients)
    (NewClientManager timeout maxClients) [] maxClients
    (by simpa using hnd.sublist (List.take_sublist _ _)) hnew (by simp [NewClientManager])
  simp only [List.nil_append] at h2 h2t
  have htbl : (addAll (NewClientManager timeout maxClients) tok st et addrs).2.cryptoEntries
      = filledTable tok st et (addrs.take maxClients) (maxClients - addrs.length) := by
    rw [h2]
  have hcap : (addAll (NewClientManager timeout maxClients) tok st et addrs).2.maxClients
      = maxClients := by
    rw [h2]; rfl
  refine ⟨h1, ?_, ?_, ?_, ?_, ?_⟩
  · have hsub : maxClients - min maxClients addrs.length = maxClients - addrs.length := by
      omega
    rw [h2, h2t, List.take_take, List.length_take, hsub, Nat.min_self]
  · rw [liveCount, htbl, filledTable_liveCount tok st et hlive, List.length_take]
    omega
  · intro a ha tok1
    obtain ⟨i, hi, _⟩ := filledTable_present tok st et hlive _ (maxClients - addrs.length) a ha
    rw [← htbl] at hi
    exact add_live_keeps_count _ tok1 st et hlive a i hi
  · intro a ha
    exact add_present_same _ tok st et hlive _ _ a ha htbl
  · intro b hb hfull tok1
    have hz : maxClients - addrs.length = 0 := by omega
    rw [hz] at htbl
    refine add_new_of_full _ tok tok1 st et hlive _ b ?_ htbl ?_
    · exact fun h => hb (List.mem_of_mem_take h)
    · rw [hcap, List.length_take]; omega

/-- The capacity of C5 with `maxClients = 2` and three addresses. -/
theorem AddEncryptionMapping_capacity_witness :
    (addAll (NewClientManager 4 2) testToken 1 2
      [testAddr 62424, testAddr 62425, testAddr 6000]).1 = [true, true, false] :=
  (AddEncryptionMapping_capacity 4 2 testToken
    [testAddr 62424, testAddr 62425, testAddr 6000] 1 2 (by decide) (by decide)).1

/-- The scenario of `TestAddEncryptionMapping` on the modelled manager
(`maxClients = 2`): adding A, A again and B succeeds, and every one of the 16
further addresses is then rejected. -/
theorem overflow_attempts_all_rejected :
    (addAll (NewClientManager 4 2) testToken 1 2
      ([testAddr 62424, testAddr 62424, testAddr 62425] ++ overAddrs 16)).1
      = [true, true, true] ++ List.replicate 16 false := by
  decide

/-! ## Helper lemmas on expiry -/

/-- The sweep of `CheckTimeouts` over one mapping slot. -/
theorem CheckTimeouts_cryptoEntries (cm : ClientManager) (st : Time) :
    (CheckTimeouts cm st).cryptoEntries = cm.cryptoEntries.map fun s =>
      match s with
      | none => none
      | some e => if e.expireTime ≤ st then none else some e := rfl

theorem CheckTimeouts_keeps_live (cm : ClientManager) (st : Time) (e : encryptionEntry)
    (h : some e ∈ (CheckTimeouts cm st).cryptoEntries) :
    some e ∈ cm.cryptoEntries ∧ st < e.expireTime := by
  rw [CheckTimeouts_cryptoEntries, List.mem_map] at h
  obtain ⟨x, hx, hxe⟩ := h
  cases x with
  | none => cases hxe
  | some e0 =>
    dsimp only at hxe
    split_ifs at hxe with hexp
    cases hxe
    exact ⟨hx, lt_of_not_ge hexp⟩

theorem Find_CheckTimeouts (cm : ClientManager) (addr : IPPort) (st : Time) :
    FindEncryptionEntryIndex (CheckTimeouts cm st) addr st
      = FindEncryptionEntryIndex cm addr st := by
  unfold FindEncryptionEntryIndex
  rw [CheckTimeouts_cryptoEntries, findSlot_map]
  congr 1
  apply findSlot_congr
  intro x _
  cases x with
  | none => rfl
  | some e =>
    dsimp only
    split_ifs with hexp
    · simp [slotLiveFor, not_lt.mpr hexp]
    · rfl

theorem Find_of_all_expired (cm : ClientManager) (addr : IPPort) (st : Time)
    (h : ∀ e, some e ∈ cm.cryptoEntries → e.address = addr → e.expireTime ≤ st) :
    FindEncryptionEntryIndex cm addr st = -1 := by
  unfold FindEncryptionEntryIndex
  rw [toIndex_eq_neg_one, findSlot_eq_none]
  intro x hx
  cases x with
  | none => rfl
  | some e =>
    by_cases ha : e.address = addr
    · simp [slotLiveFor, ha, not_lt.mpr (h e hx ha)]
    · simp [slotLiveFor, ha]

theorem Find_ne_of_mem (cm : ClientManager) (addr : IPPort) (st : Time) (e : encryptionEntry)
    (hmem : some e ∈ cm.cryptoEntries) (ha : e.address = addr) (hl : st < e.expireTime) :
    FindEncryptionEntryIndex cm addr st ≠ -1 := by
  unfold FindEncryptionEntryIndex
  rw [Ne, toIndex_eq_neg_one, findSlot_eq_none]
  intro hall
  have := hall _ hmem
  simp [slotLiveFor, ha, hl] at this

theorem SetExpiration_at_found (cm : ClientManager) (addr : IPPort) (st e1 : Time) (i : Nat)
    (hi : findSlot (slotLiveFor addr st) cm.cryptoEntries = some i) :
    ∃ e, cm.cryptoEntries[i]? = some (some e) ∧ e.address = addr ∧ st < e.expireTime ∧
      SetEncryptionEntryExpiration cm (FindEncryptionEntryIndex cm addr st) e1
        = (true, { cm with cryptoEntries :=
            cm.cryptoEntries.set i (some { e with expireTime := e1 }) }) := by
  obtain ⟨x, hx, hpx⟩ := findSlot_some _ _ _ hi
  cases x with
  | none => simp [slotLiveFor] at hpx
  | some e =>
    simp only [slotLiveFor, Bool.and_eq_true, decide_eq_true_eq] at hpx
    refine ⟨e, hx, hpx.1, hpx.2, ?_⟩
    unfold SetEncryptionEntryExpiration FindEncryptionEntryIndex
    rw [hi]
    simp [toIndex, hx]

/-- After a successful `AddEncryptionMapping` with `serverTime < expireTime` the
table holds a live mapping for the address. -/
theorem add_result_live (cm : ClientManager) (tok : ConnectTokenPrivate) (addr : IPPort)
    (st et : Time) (hlive : st < et)
    (hok : (AddEncryptionMapping cm tok addr st et).1 = true) :
    ∃ e, some e ∈ (AddEncryptionMapping cm tok addr st et).2.cryptoEntries ∧
      e.address = addr ∧ st < e.expireTime := by
  cases hf : findSlot (slotLiveFor addr st) cm.cryptoEntries with
  | some i =>
    obtain ⟨x, hx, hpx⟩ := findSlot_some _ _ _ hf
    cases x with
    | none => simp [slotLiveFor] at hpx
    | some e =>
      simp only [slotLiveFor, Bool.and_eq_true, decide_eq_true_eq] at hpx
      simp only [AddEncryptionMapping, hf]
      rw [modify_eq_set_of_getElem? _ _ i _ hx]
      have hi : i < cm.cryptoEntries.length := by
        rcases List.getElem?_eq_some.mp hx with ⟨h, _⟩
        exact h
      refine ⟨{ e with sendKey := tok.ServerKey, recvKey := tok.ClientKey
                       expireTime := et, lastAccess := st }, ?_, hpx.1, hlive⟩
      exact List.mem_iff_getElem?.mpr ⟨i, by simp [hi]⟩
  | none =>
    simp only [AddEncryptionMapping, hf] at hok ⊢
    by_cases hcap : cm.maxClients ≤ liveCount cm st
    · simp [hcap] at hok
    · simp only [hcap, if_false] at hok ⊢
      cases hs : findSlot (fun s => !slotLive st s) cm.cryptoEntries with
      | none => rw [hs] at hok; cases hok
      | some i =>
        obtain ⟨x, hx, _⟩ := findSlot_some _ _ _ hs
        have hi : i < cm.cryptoEntries.length := by
          rcases List.getElem?_eq_some.mp hx with ⟨h, _⟩
          exact h
        simp only
        refine ⟨mkEntry tok st et addr, List.mem_iff_getElem?.mpr ⟨i, ?_⟩, rfl, hlive⟩
        simp [hi, mkEntry]

/-- C6. If every mapping stored for `addr` has `expireTime <= serverTime`, then
`FindEncryptionEntryIndex(addr, serverTime)` returns -1, and after
`CheckTimeouts(serverTime)` no slot holds a mapping for `addr` and the lookup
still returns -1; this is the state reached by `SetEncryptionEntryExpiration`
with a time not after `serverTime` on the index the lookup returned, when that
index holds the only live mapping for `addr`; and a mapping just added with
`expireTime > serverTime` is found, and `SetEncryptionEntryExpiration` on its
index returns true. -/
theorem expired_mapping_not_found (cm : ClientManager) (addr : IPPort) (st : Time) :
    ((∀ e, some e ∈ cm.cryptoEntries → e.address = addr → e.expireTime ≤ st) →
      FindEncryptionEntryIndex cm addr st = -1 ∧
      (∀ e, some e ∈ (CheckTimeouts cm st).cryptoEntries → e.address ≠ addr) ∧
      FindEncryptionEntryIndex (CheckTimeouts cm st) addr st = -1) ∧
    (∀ e1, e1 ≤ st → FindEncryptionEntryIndex cm addr st ≠ -1 →
      (∀ (j : Nat) (e : encryptionEntry), cm.cryptoEntries[j]? = some (some e) → e.address = addr → st < e.expireTime →
        (j : Int) = FindEncryptionEntryIndex cm addr st) →
      (SetEncryptionEntryExpiration cm (FindEncryptionEntryIndex cm addr st) e1).1 = true ∧
      FindEncryptionEntryIndex
        (SetEncryptionEntryExpiration cm (FindEncryptionEntryIndex cm addr st) e1).2 addr st
        = -1 ∧
      (∀ e, some e ∈ (CheckTimeouts
          (SetEncryptionEntryExpiration cm (FindEncryptionEntryIndex cm addr st) e1).2
          st).cryptoEntries → e.address ≠ addr) ∧
      FindEncryptionEntryIndex (CheckTimeouts
        (SetEncryptionEntryExpiration cm (FindEncryptionEntryIndex cm addr st) e1).2 st) addr st
        = -1) ∧
    (∀ tok et, st < et → (AddEncryptionMapping cm tok addr st et).1 = true →
      FindEncryptionEntryIndex (AddEncryptionMapping cm tok addr st et).2 addr st ≠ -1 ∧
      ∀ e1, (SetEncryptionEntryExpiration (AddEncryptionMapping cm tok addr st et).2
        (FindEncryptionEntryIndex (AddEncryptionMapping cm tok addr st et).2 addr st) e1).1
        = true) := by
  have partA : ∀ cm : ClientManager,
      (∀ e, some e ∈ cm.cryptoEntries → e.address = addr → e.expireTime ≤ st) →
      FindEncryptionEntryIndex cm addr st = -1 ∧
      (∀ e, some e ∈ (CheckTimeouts cm st).cryptoEntries → e.address ≠ addr) ∧
      FindEncryptionEntryIndex (CheckTimeouts cm st) addr st = -1 := by
    intro cm h
    have h1 := Find_of_all_expired cm addr st h
    refine ⟨h1, ?_, by rw [Find_CheckTimeouts, h1]⟩
    intro e he ha
    obtain ⟨hmem, hl⟩ := CheckTimeouts_keeps_live cm st e he
    exact absurd (h e hmem ha) (not_le.mpr hl)
  refine ⟨partA cm, ?_, ?_⟩
  · intro e1 he1 hfound huniq
    cases hf : findSlot (slotLiveFor addr st) cm.cryptoEntries with
    | none =>
      exact absurd ((toIndex_eq_neg_one _).mpr hf) hfound
    | some i =>
      obtain ⟨e0, hget, _, _, hset⟩ := SetExpiration_at_found cm addr st e1 i hf
      have hidx : FindEncryptionEntryIndex cm addr st = (i : Int) := by
        simp [FindEncryptionEntryIndex, hf, toIndex]
      rw [hset]
      refine ⟨rfl, partA _ ?_⟩
      intro e he ha
      obtain ⟨j, hj⟩ := List.mem_iff_getElem?.mp he
      simp only at hj
      by_cases hji : i = j
      · subst hji
        have hi : i < cm.cryptoEntries.length := by
          rcases List.getElem?_eq_some.mp hget with ⟨h, _⟩
          exact h
        rw [List.getElem?_set_eq_of_lt _ hi] at hj
        cases hj
        exact he1
      · rw [List.getElem?_set_ne hji] at hj
        by_contra hlive
        have := huniq j e hj ha (not_le.mp hlive)
        rw [hidx] at this
        exact hji (by exact_mod_cast this.symm)
  · intro tok et hlive hok
    obtain ⟨e, hmem, ha, hl⟩ := add_result_live cm tok addr st et hlive hok
    have hne := Find_ne_of_mem _ addr st e hmem ha hl
    refine ⟨hne, ?_⟩
    intro e1
    cases hf : findSlot (slotLiveFor addr st)
        (AddEncryptionMapping cm tok addr st et).2.cryptoEntries with
    | none => exact absurd ((toIndex_eq_neg_one _).mpr hf) hne
    | some i =>
      obtain ⟨_, _, _, _, hset⟩ := SetExpiration_at_found _ addr st e1 i hf
      rw [hset]

/-- The scenario of `TestAddEncryptionMappingTimeout` for C6. -/
theorem expired_mapping_not_found_witness :
    FindEncryptionEntryIndex (AddEncryptionMapping (NewClientManager 4 2) testToken
      (testAddr 62424) 1 2).2 (testAddr 62424) 1 = 0 ∧
    FindEncryptionEntryIndex (CheckTimeouts (SetEncryptionEntryExpiration
      (AddEncryptionMapping (NewClientManager 4 2) testToken (testAddr 62424) 1 2).2
      (FindEncryptionEntryIndex (AddEncryptionMapping (NewClientManager 4 2) testToken
        (testAddr 62424) 1 2).2 (testAddr 62424) 1) 0).2 1) (testAddr 62424) 1 = -1 :=
  ⟨by decide,
   ((expired_mapping_not_found (AddEncryptionMapping (NewClientManager 4 2) testToken
      (testAddr 62424) 1 2).2 (testAddr 62424) 1).2.1 0 (by decide) (by decide) (by
        intro j e h _ _
        have htbl : (AddEncryptionMapping (NewClientManager 4 2) testToken
            (testAddr 62424) 1 2).2.cryptoEntries
            = [some (mkEntry testToken 1 2 (testAddr 62424)), none] := by decide
        rw [htbl] at h
        rcases j with _ | _ | j
        · decide
        · simp at h
        · simp at h)).2.2.2⟩

/-! ## Helper lemmas on the client slots -/

/-- What a successful `ConnectClient` returns and stores. -/
theorem ConnectClient_some (cm : ClientManager) (addr : IPPort) (tok : ChallengeToken)
    (client : ClientInstance) (cm1 : ClientManager)
    (h : ConnectClient cm addr tok = (some client, cm1)) :
    ∃ idx free, findSlot (fun i => !i.connected) cm.instances = some idx ∧
      cm.instances[idx]? = some free ∧ free.connected = false ∧
      client.clientIndex = idx ∧ client.connected = true ∧
      client.clientId = tok.ClientId ∧ client.address = addr ∧
      (client.sendKey, client.recvKey)
        = (match cm.cryptoEntries.find? (slotHolds addr) with
          | some (some e) => (e.sendKey, e.recvKey)
          | _ => ([], [])) ∧
      cm1 = { cm with instances := cm.instances.set idx client } := by
  unfold ConnectClient at h
  split_ifs at h with hopen
  · cases h
  · cases hf : findSlot (fun i => !i.connected) cm.instances with
    | none => rw [hf] at h; cases h
    | some idx =>
      rw [hf] at h
      obtain ⟨free, hfree, hp⟩ := findSlot_some _ _ _ hf
      simp only [Prod.mk.injEq, Option.some.injEq] at h
      obtain ⟨h1, h2⟩ := h
      refine ⟨idx, free, rfl, hfree, by simpa using hp, ?_, ?_, ?_, ?_, ?_, ?_⟩
      · rw [← h1]; rfl
      · rw [← h1]
      · rw [← h1]
      · rw [← h1]
      · rw [← h1]
      · rw [← h2, ← h1]

theorem getElem?_lt {α : Type} (l : List α) (i : Nat) (x : α) (h : l[i]? = some x) :
    i < l.length := by
  rcases List.getElem?_eq_some.mp h with ⟨hi, _⟩
  exact hi

theorem NewClientManager_no_connected (timeout : Time) (maxClients : Nat) :
    ∀ x ∈ (NewClientManager timeout maxClients).instances, x.connected = false := by
  intro x hx
  simp only [NewClientManager, List.mem_map] at hx
  obtain ⟨i, _, rfl⟩ := hx
  rfl

/-- Under a pairwise exclusion of the elements that satisfy `p`, the scan finds
the position of any element that satisfies `p`. -/
theorem findSlot_of_pairwise {α : Type} (p : α → Bool) (R : α → α → Prop)
    (hR : ∀ a b, R a b → p a = true → p b = true → False) (l : List α) :
    ∀ (idx : Nat) (x : α), l.Pairwise R → l[idx]? = some x → p x = true →
      findSlot p l = some idx := by
  induction l with
  | nil => intro idx x _ hx; simp at hx
  | cons a l ih =>
    intro idx x hpw hx hpx
    rw [List.pairwise_cons] at hpw
    cases idx with
    | zero =>
      simp at hx
      subst hx
      simp [findSlot, hpx]
    | succ k =>
      simp at hx
      have hmem : x ∈ l := List.getElem?_mem hx
      have hpa : p a = false := by
        cases hpa : p a with
        | false => rfl
        | true => exact absurd hpx (fun h => hR a x (hpw.1 x hmem) hpa h)
      simp [findSlot, hpa, ih k x hpw.2 hx hpx]

/-- With a live mapping for `addr`, the scan `ConnectClient` uses to copy the
keys finds a mapping for `addr`. -/
theorem find_mapping_of_live (cm : ClientManager) (addr : IPPort) (st : Time)
    (hlive : FindEncryptionEntryIndex cm addr st ≠ -1) :
    ∃ e, cm.cryptoEntries.find? (slotHolds addr) = some (some e) ∧
      some e ∈ cm.cryptoEntries ∧ e.address = addr := by
  unfold FindEncryptionEntryIndex at hlive
  cases hf : findSlot (slotLiveFor addr st) cm.cryptoEntries with
  | none => exact absurd ((toIndex_eq_neg_one _).mpr hf) hlive
  | some i =>
    obtain ⟨x, hx, hpx⟩ := findSlot_some _ _ _ hf
    have hxm : x ∈ cm.cryptoEntries := List.getElem?_mem hx
    have hholds : slotHolds addr x = true := by
      cases x with
      | none => simp [slotLiveFor] at hpx
      | some e =>
        simp only [slotLiveFor, Bool.and_eq_true, decide_eq_true_eq] at hpx
        simp [slotHolds, hpx.1]
    cases hfd : cm.cryptoEntries.find? (slotHolds addr) with
    | none =>
      rw [List.find?_eq_none] at hfd
      exact absurd hholds (hfd x hxm)
    | some y =>
      have hy : slotHolds addr y = true := List.find?_some hfd
      have hym : y ∈ cm.cryptoEntries := List.mem_of_find?_eq_some hfd
      cases y with
      | none => simp [slotHolds] at hy
      | some e =>
        refine ⟨e, rfl, hym, ?_⟩
        simpa [slotHolds] using hy

/-- C7. For every client manager with a free slot and a live encryption mapping
for `addr`, a successful `ConnectClient(addr, challengeToken)` that leaves the
manager within the invariant of its slots (connected slots have unique client
ids and addresses) takes the free slot, copies the keys of a mapping for
`addr`, increases `ConnectedClientCount` by exactly one and makes
`FindClientIndexById` of the token's client id return the new slot's index (not
-1); `DisconnectClient(index, false, serverTime)` then sets that slot's
connected flag to false and decreases the count by exactly one.  On a fresh
manager with `maxClients >= 1`, `FindFreeClientIndex` is not -1 and both lookups
return -1 for every argument. -/
theorem connect_disconnect_count (cm : ClientManager) (addr : IPPort) (tok : ChallengeToken)
    (st : Time) (client : ClientInstance) (cm1 : ClientManager)
    (hfree : FindFreeClientIndex cm ≠ -1)
    (hlive : FindEncryptionEntryIndex cm addr st ≠ -1)
    (hok : ConnectClient cm addr tok = (some client, cm1))
    (hinv : uniqueConnected cm1) :
    ConnectedClientCount cm1 = ConnectedClientCount cm + 1 ∧
    (client.clientIndex : Int) = FindFreeClientIndex cm ∧
    cm1.instances[client.clientIndex]? = some client ∧
    client.connected = true ∧ client.clientId = tok.ClientId ∧ client.address = addr ∧
    (∃ e, some e ∈ cm.cryptoEntries ∧ e.address = addr ∧
      client.sendKey = e.sendKey ∧ client.recvKey = e.recvKey) ∧
    FindClientIndexById cm1 tok.ClientId = client.clientIndex ∧
    FindClientIndexById cm1 tok.ClientId ≠ -1 ∧
    (∀ st1,
      ((DisconnectClient cm1 (FindClientIndexById cm1 tok.ClientId) false
        st1).instances[client.clientIndex]?).map (fun i => i.connected) = some false ∧
      ConnectedClientCount (DisconnectClient cm1 (FindClientIndexById cm1 tok.ClientId) false
        st1) + 1 = ConnectedClientCount cm1) ∧
    (∀ timeout maxClients, 1 ≤ maxClients →
      FindFreeClientIndex (NewClientManager timeout maxClients) ≠ -1 ∧
      (∀ a, FindClientIndexByAddress (NewClientManager timeout maxClients) a = -1) ∧
      ∀ id, FindClientIndexById (NewClientManager timeout maxClients) id = -1) := by
  obtain ⟨idx, free, hf, hfreeSlot, hfc, hidx, hconn, hid, haddr, hkeys, hcm1⟩ :=
    ConnectClient_some cm addr tok client cm1 hok
  have hlt : idx < cm.instances.length := getElem?_lt _ _ _ hfreeSlot
  have hget : cm1.instances[idx]? = some client := by
    rw [hcm1]; simp [hlt]
  have hp : (fun i : ClientInstance => i.connected && decide (i.clientId = tok.ClientId))
      client = true := by simp [hconn, hid]
  have hcount : ConnectedClientCount cm1 = ConnectedClientCount cm + 1 := by
    have := countP_set_of_getElem? (fun i : ClientInstance => i.connected) cm.instances idx
      client free hfreeSlot
    simp only [hfc, hconn, Bool.false_eq_true, if_false, if_true] at this
    rw [hcm1]
    simpa [ConnectedClientCount] using this
  have hfind : FindClientIndexById cm1 tok.ClientId = client.clientIndex := by
    unfold FindClientIndexById
    rw [findSlot_of_pairwise _ _ ?_ cm1.instances idx client hinv hget hp, hidx]
    · rfl
    · intro a b hab ha hb
      simp only [Bool.and_eq_true, decide_eq_true_eq] at ha hb
      exact (hab ha.1 hb.1).1 (ha.2.trans hb.2.symm)
  obtain ⟨e, hfd, hem, hea⟩ := find_mapping_of_live cm addr st hlive
  rw [hfd] at hkeys
  simp only [Prod.mk.injEq] at hkeys
  refine ⟨hcount, ?_, ?_, hconn, hid, haddr, ⟨e, hem, hea, hkeys.1, hkeys.2⟩, hfind, ?_, ?_, ?_⟩
  · simp [FindFreeClientIndex, hf, toIndex, hidx]
  · rw [hidx]; exact hget
  · rw [hfind]
    omega
  · intro st1
    rw [hfind]
    have hmod : (DisconnectClient cm1 client.clientIndex false st1).instances
        = cm1.instances.set idx (emptyInstance client.clientIndex) := by
      unfold DisconnectClient
      rw [if_neg (by omega)]
      simp only [Int.toNat_ofNat, hidx]
      rw [modify_eq_set_of_getElem? _ _ idx client hget, hidx]
    have hlt1 : idx < cm1.instances.length := getElem?_lt _ _ _ hget
    constructor
    · rw [hmod, hidx]
      simp [hlt1, emptyInstance]
    · have := countP_set_of_getElem? (fun i : ClientInstance => i.connected) cm1.instances
        idx (emptyInstance client.clientIndex) client hget
      simp only [hconn, if_true, emptyInstance, Bool.false_eq_true, if_false] at this
      simp only [ConnectedClientCount, hmod]
      simpa [emptyInstance] using this
  · intro timeout maxClients hpos
    have hno := NewClientManager_no_connected timeout maxClients
    refine ⟨?_, ?_, ?_⟩
    · unfold FindFreeClientIndex
      rw [Ne, toIndex_eq_neg_one, findSlot_eq_none]
      intro hall
      have hmem : emptyInstance 0 ∈ (NewClientManager timeout maxClients).instances := by
        simp only [NewClientManager, List.mem_map, List.mem_range]
        exact ⟨0, by omega, rfl⟩
      have := hall _ hmem
      simp [emptyInstance] at this
    · intro a
      unfold FindClientIndexByAddress
      rw [toIndex_eq_neg_one, findSlot_eq_none]
      intro x hx
      simp [hno x hx]
    · intro id
      unfold FindClientIndexById
      rw [toIndex_eq_neg_one, findSlot_eq_none]
      intro x hx
      simp [hno x hx]

/-- The scenario of `TestDisconnectClient` for C7: one client connects on a
manager with `maxClients = 2` and a live mapping for its address. -/
theorem connect_disconnect_count_witness :
    ConnectedClientCount connectedOnce = ConnectedClientCount mappedManager + 1 :=
  (connect_disconnect_count mappedManager (testAddr 62424) (NewChallengeToken 7) 1
    connectedClient connectedOnce (by decide) (by decide) (by decide)
    (by unfold uniqueConnected; decide)).1

end Netcode
